import Mathlib

/-!
Verification development for the GAJHO-Genetic-Algo repository (a TSP solver
with a GA-JGHO metaheuristic and three comparator algorithms).

The TypeScript sources are shallowly embedded:
* JS `number` values that hold coordinates, distances and fitness are modelled
  as `ℚ` (exact arithmetic standing in for floats), except for the Euclidean
  distance itself which needs `Real.sqrt` and is modelled in `ℝ`;
* `Math.random()` draws are made explicit parameters (a draw, a stream of
  draws, or a function from call counter to draw), so every operator is a
  deterministic function of its random choices;
* JS arrays are `List`s; `arr[i]` reads are `List.getD i _` with the JS
  out-of-bounds `undefined` never reachable under the stated hypotheses;
  `Set`/`Map` keyed by `genes.join(',')` is modelled by membership of the
  (injectively corresponding) gene list itself.
-/

namespace GAJHO

/-- `Chromosome` from src/types/algorithm.ts: a tour (list of city indices)
with its cached fitness and distance (both the tour length for TSP). -/
structure Chromosome where
  genes : List Nat
  fitness : ℚ
  distance : ℚ
  deriving DecidableEq, Repr

/-- Default chromosome used to model JS `undefined` array reads (never
reachable under the theorems' hypotheses). -/
def dfltC : Chromosome := ⟨[], 0, 0⟩

/-- `calculateTotalDistanceWithMatrix` from src/utils/distance.ts: the
cyclic tour length `Σ_i d[genes[i]][genes[(i+1) % n]]`.  The distance
matrix `number[][]` is modelled as a function `Nat → Nat → ℚ`. -/
def calculateTotalDistanceWithMatrix (d : Nat → Nat → ℚ) (genes : List Nat) : ℚ :=
  ((List.range genes.length).map
    (fun i => d (genes.getD i 0) (genes.getD ((i + 1) % genes.length) 0))).sum

/-- Proof helper: the non-cyclic path length (sum over consecutive pairs). -/
def pathLength (d : Nat → Nat → ℚ) : List Nat → ℚ
  | [] => 0
  | [_] => 0
  | a :: b :: t => d a b + pathLength d (b :: t)

lemma pathLength_nil (d : Nat → Nat → ℚ) : pathLength d [] = 0 := rfl

lemma pathLength_single (d : Nat → Nat → ℚ) (a : Nat) : pathLength d [a] = 0 := rfl

lemma pathLength_cons_cons (d : Nat → Nat → ℚ) (a b : Nat) (t : List Nat) :
    pathLength d (a :: b :: t) = d a b + pathLength d (b :: t) := rfl

lemma getD_zero_eq_headD (l : List Nat) (d0 : Nat) : l.getD 0 d0 = l.headD d0 := by
  cases l <;> rfl

lemma getLastD_cons_cons (a b : Nat) (t : List Nat) (d0 : Nat) :
    (a :: b :: t).getLastD d0 = (b :: t).getLastD d0 := by
  simp [List.getLastD_eq_getLast?, List.getLast?_cons_cons]

lemma getD_length_sub_one (l : List Nat) (hl : l ≠ []) (d0 : Nat) :
    l.getD (l.length - 1) d0 = l.getLastD d0 := by
  induction l with
  | nil => simp at hl
  | cons a t ih =>
    cases t with
    | nil => rfl
    | cons b t' =>
      have h1 : (a :: b :: t').length - 1 = (b :: t').length - 1 + 1 := by
        simp [List.length_cons]
      rw [h1, List.getD_cons_succ, ih (by simp), getLastD_cons_cons]

/-- The indexed path part of the cyclic sum equals structural `pathLength`. -/
lemma pathSum_eq_pathLength (d : Nat → Nat → ℚ) (l : List Nat) :
    ((List.range (l.length - 1)).map (fun i => d (l.getD i 0) (l.getD (i + 1) 0))).sum
      = pathLength d l := by
  induction l with
  | nil => simp [pathLength]
  | cons a t ih =>
    cases t with
    | nil => simp [pathLength]
    | cons b t' =>
      have hlen : (a :: b :: t').length - 1 = ((b :: t').length - 1) + 1 := by
        simp [List.length_cons]
      rw [hlen, pathLength_cons_cons, List.range_succ_eq_map, List.map_cons,
        List.sum_cons, List.map_map]
      exact congrArg₂ (· + ·) rfl ih

/-- Bridge: the cyclic tour length is the path length plus the closing edge. -/
lemma calc_eq_path_add_close (d : Nat → Nat → ℚ) (l : List Nat) (hl : l ≠ []) :
    calculateTotalDistanceWithMatrix d l
      = pathLength d l + d (l.getLastD 0) (l.headD 0) := by
  have hn : 0 < l.length := List.length_pos.2 hl
  unfold calculateTotalDistanceWithMatrix
  have hsplit : List.range l.length = List.range (l.length - 1) ++ [l.length - 1] := by
    conv_lhs => rw [show l.length = (l.length - 1) + 1 from (Nat.succ_pred_eq_of_pos hn).symm]
    exact List.range_succ _
  rw [hsplit, List.map_append, List.sum_append]
  have hlast : ((l.length - 1) + 1) % l.length = 0 := by
    have h1 : l.length - 1 + 1 = l.length := by omega
    rw [h1, Nat.mod_self]
  have hterm : ([l.length - 1].map
      (fun i => d (l.getD i 0) (l.getD ((i + 1) % l.length) 0))).sum
        = d (l.getLastD 0) (l.headD 0) := by
    simp only [List.map_cons, List.map_nil, List.sum_cons, List.sum_nil, add_zero]
    rw [hlast, getD_length_sub_one l hl, getD_zero_eq_headD]
  rw [hterm]
  congr 1
  rw [← pathSum_eq_pathLength]
  apply congrArg
  apply List.map_congr_left
  intro i hi
  have hi' : i < l.length - 1 := List.mem_range.1 hi
  have : (i + 1) % l.length = i + 1 := Nat.mod_eq_of_lt (by omega)
  rw [this]

/-- Path length distributes over append, with the junction edge. -/
lemma pathLength_append (d : Nat → Nat → ℚ) (xs ys : List Nat)
    (hx : xs ≠ []) (hy : ys ≠ []) :
    pathLength d (xs ++ ys)
      = pathLength d xs + d (xs.getLastD 0) (ys.headD 0) + pathLength d ys := by
  induction xs with
  | nil => simp at hx
  | cons a t ih =>
    cases t with
    | nil =>
      cases ys with
      | nil => simp at hy
      | cons c u =>
        have h1 : ([a] : List Nat).getLastD 0 = a := rfl
        have h2 : (c :: u).headD 0 = c := rfl
        simp only [List.cons_append, List.nil_append, pathLength_cons_cons,
          pathLength_single, h1, h2]
        ring
    | cons b t' =>
      have := ih (by simp)
      simp only [List.cons_append] at this ⊢
      rw [pathLength_cons_cons, pathLength_cons_cons, this, getLastD_cons_cons]
      ring

/-- Under a symmetric matrix the path length of a reversed list is unchanged. -/
lemma pathLength_reverse (d : Nat → Nat → ℚ) (hsym : ∀ a b, d a b = d b a)
    (l : List Nat) : pathLength d l.reverse = pathLength d l := by
  induction l with
  | nil => rfl
  | cons a t ih =>
    cases t with
    | nil => rfl
    | cons b t' =>
      have hrev : (a :: b :: t').reverse = (b :: t').reverse ++ [a] := by
        simp
      rw [hrev, pathLength_append d _ [a] (by simp) (by simp)]
      have hlast : ((b :: t').reverse).getLastD 0 = (b :: t').headD 0 := by
        rw [List.getLastD_eq_getLast?, List.getLast?_reverse, List.headD_eq_head?]
      rw [ih, hlast, pathLength_single, pathLength_cons_cons]
      simp only [List.headD_cons]
      rw [hsym b a]
      ring

/-! ## Distance matrix (src/utils/distance.ts) -/

/-- `City` from src/types/algorithm.ts (the optional display `name` is
irrelevant to the engine and omitted).  Coordinates are modelled as `ℚ`. -/
structure City where
  id : Int
  x : ℚ
  y : ℚ
  deriving DecidableEq, Repr

/-- Default city used to model JS out-of-bounds reads. -/
def dfltCity : City := ⟨0, 0, 0⟩

/-- `calculateDistance` from src/utils/distance.ts: Euclidean distance
`sqrt(dx*dx + dy*dy)`, valued in `ℝ`. -/
noncomputable def calculateDistance (c1 c2 : City) : ℝ :=
  ((c1.x : ℝ) - (c2.x : ℝ)) * ((c1.x : ℝ) - (c2.x : ℝ))
    + ((c1.y : ℝ) - (c2.y : ℝ)) * ((c1.y : ℝ) - (c2.y : ℝ)) |>.sqrt

lemma calculateDistance_symm (c1 c2 : City) :
    calculateDistance c1 c2 = calculateDistance c2 c1 := by
  unfold calculateDistance
  ring_nf

lemma calculateDistance_self (c : City) : calculateDistance c c = 0 := by
  unfold calculateDistance
  simp

/-- Point update of a matrix-as-function (models `matrix[i][j] = v`). -/
def setEntry (m : Nat → Nat → ℝ) (i j : Nat) (v : ℝ) : Nat → Nat → ℝ :=
  fun a b => if a = i ∧ b = j then v else m a b

/-- The `(i, j)` pairs visited by the two nested loops of
`buildDistanceMatrix` (`i` from `0` to `n-1`, `j` from `i+1` to `n-1`). -/
def upperPairs (n : Nat) : List (Nat × Nat) :=
  (List.range n).flatMap (fun i => (List.range' (i + 1) (n - (i + 1))).map (fun j => (i, j)))

/-- `buildDistanceMatrix` from src/utils/distance.ts: start from the all-zero
`n×n` matrix and, for every `i < j < n`, set both `m[i][j]` and `m[j][i]` to
the Euclidean distance of cities `i` and `j`.  The matrix is modelled as the
indexing function `Nat → Nat → ℝ` it computes. -/
noncomputable def buildDistanceMatrix (cities : List City) : Nat → Nat → ℝ :=
  let dist := fun i j => calculateDistance (cities.getD i dfltCity) (cities.getD j dfltCity)
  (upperPairs cities.length).foldl
    (fun m p => setEntry (setEntry m p.1 p.2 (dist p.1 p.2)) p.2 p.1 (dist p.1 p.2))
    (fun _ _ => 0)

lemma mem_upperPairs {n a b : Nat} :
    (a, b) ∈ upperPairs n ↔ a < b ∧ b < n := by
  unfold upperPairs
  rw [List.mem_flatMap]
  constructor
  · rintro ⟨i, hi, hmem⟩
    rw [List.mem_map] at hmem
    obtain ⟨j, hj, hpair⟩ := hmem
    cases hpair
    rw [List.mem_range'] at hj
    rw [List.mem_range] at hi
    obtain ⟨k, hk, hkeq⟩ := hj
    omega
  · rintro ⟨hab, hbn⟩
    refine ⟨a, List.mem_range.2 (by omega), List.mem_map.2 ⟨b, ?_, rfl⟩⟩
    rw [List.mem_range']
    exact ⟨b - (a + 1), by omega, by omega⟩

/-- Characterization of the symmetric-update fold: an entry holds the
distance value iff its (ordered) pair was visited, otherwise the initial
value.  Requires the written value to be symmetric. -/
lemma foldl_setSym_spec (v : Nat → Nat → ℝ) (hv : ∀ i j, v i j = v j i) :
    ∀ (L : List (Nat × Nat)) (m : Nat → Nat → ℝ) (a b : Nat),
      (L.foldl (fun m p => setEntry (setEntry m p.1 p.2 (v p.1 p.2)) p.2 p.1 (v p.1 p.2)) m) a b
        = if (a, b) ∈ L ∨ (b, a) ∈ L then v a b else m a b := by
  intro L
  induction L with
  | nil => intro m a b; simp
  | cons p L ih =>
    intro m a b
    rw [List.foldl_cons, ih]
    by_cases hL : (a, b) ∈ L ∨ (b, a) ∈ L
    · have hcons : (a, b) ∈ p :: L ∨ (b, a) ∈ p :: L := by
        rcases hL with h | h
        · exact Or.inl (List.mem_cons_of_mem _ h)
        · exact Or.inr (List.mem_cons_of_mem _ h)
      rw [if_pos hL, if_pos hcons]
    · rw [if_neg hL]
      unfold setEntry
      obtain ⟨i, j⟩ := p
      by_cases hji : a = j ∧ b = i
      · obtain ⟨rfl, rfl⟩ := hji
        rw [if_pos (Or.inr (List.mem_cons_self _ _))]
        simp [hv b a]
      · rw [if_neg hji]
        by_cases hij : a = i ∧ b = j
        · obtain ⟨rfl, rfl⟩ := hij
          rw [if_pos (⟨rfl, rfl⟩ : a = a ∧ b = b),
            if_pos (Or.inl (List.mem_cons_self _ _))]
        · rw [if_neg hij, if_neg]
          rintro (h | h) <;> rw [List.mem_cons] at h <;>
            rcases h with h | h
          · exact hij ⟨congrArg Prod.fst h, congrArg Prod.snd h⟩
          · exact hL (Or.inl h)
          · exact hji ⟨(congrArg Prod.snd h : a = j), (congrArg Prod.fst h : b = i)⟩
          · exact hL (Or.inr h)

/-- **C8.** For every list of `n` points, `buildDistanceMatrix` returns an
`n×n` matrix with `matrix[i][j] = matrix[j][i]`, `matrix[i][i] = 0`, and
each off-diagonal entry equal to the Euclidean distance between points `i`
and `j`. -/
theorem buildDistanceMatrix_spec (cities : List City) (i j : Nat)
    (hi : i < cities.length) (hj : j < cities.length) :
    buildDistanceMatrix cities i j = buildDistanceMatrix cities j i
    ∧ buildDistanceMatrix cities i i = 0
    ∧ (i ≠ j → buildDistanceMatrix cities i j
        = calculateDistance (cities.getD i dfltCity) (cities.getD j dfltCity)) := by
  have hv : ∀ a b, calculateDistance (cities.getD a dfltCity) (cities.getD b dfltCity)
      = calculateDistance (cities.getD b dfltCity) (cities.getD a dfltCity) :=
    fun a b => calculateDistance_symm _ _
  have key : ∀ a b, buildDistanceMatrix cities a b
      = if (a, b) ∈ upperPairs cities.length ∨ (b, a) ∈ upperPairs cities.length
        then calculateDistance (cities.getD a dfltCity) (cities.getD b dfltCity) else 0 := by
    intro a b
    unfold buildDistanceMatrix
    rw [foldl_setSym_spec _ hv]
  refine ⟨?_, ?_, ?_⟩
  · rw [key, key]
    by_cases h : (i, j) ∈ upperPairs cities.length ∨ (j, i) ∈ upperPairs cities.length
    · rw [if_pos h, if_pos (Or.symm h), hv]
    · rw [if_neg h, if_neg (fun hc => h (Or.symm hc))]
  · rw [key, if_neg, ]
    rintro (h | h) <;> exact absurd (mem_upperPairs.1 h).1 (lt_irrefl i)
  · intro hne
    rw [key, if_pos]
    rcases Nat.lt_or_ge i j with h | h
    · exact Or.inl (mem_upperPairs.2 ⟨h, hj⟩)
    · exact Or.inr (mem_upperPairs.2 ⟨by omega, hi⟩)

/-- Witness for C8 at a concrete input. -/
theorem buildDistanceMatrix_spec_witness :
    (0 < ([⟨0, 0, 0⟩, ⟨1, 3, 4⟩, ⟨2, 0, 5⟩] : List City).length)
    ∧ buildDistanceMatrix [⟨0, 0, 0⟩, ⟨1, 3, 4⟩, ⟨2, 0, 5⟩] 0 1
        = buildDistanceMatrix [⟨0, 0, 0⟩, ⟨1, 3, 4⟩, ⟨2, 0, 5⟩] 1 0 :=
  ⟨by decide,
    (buildDistanceMatrix_spec [⟨0, 0, 0⟩, ⟨1, 3, 4⟩, ⟨2, 0, 5⟩] 0 1
      (by decide) (by decide)).1⟩

/-! ## Bidirectional heuristic crossover (src/algorithms/crossover.ts) -/

lemma getD_mem {l : List Nat} {i : Nat} (h : i < l.length) (d0 : Nat) :
    l.getD i d0 ∈ l := by
  rw [List.getD_eq_getElem l d0 h]
  exact List.getElem_mem h

/-- `findNeighbors` from src/algorithms/crossover.ts: the successor
(clockwise) or predecessor (counterclockwise) of `cityId` in the tour.
The JS `(pos - 1 + n) % n` is `(pos + n - 1) % n` over `Nat`. -/
def findNeighbors (cityId : Nat) (genes : List Nat) (clockwise : Bool) : List Nat :=
  let n := genes.length
  let pos := genes.indexOf cityId
  if clockwise then [genes.getD ((pos + 1) % n) 0]
  else [genes.getD ((pos + n - 1) % n) 0]

/-- `findNearestCity` from src/algorithms/crossover.ts: first-occurrence
argmin of the distance from `fromCity` over the candidate list. -/
def findNearestCity (d : Nat → Nat → ℚ) (fromCity : Nat) (cands : List Nat) : Nat :=
  cands.foldl (fun best c => if d fromCity c < d fromCity best then c else best)
    (cands.headD 0)

lemma foldl_nearest_mem (d : Nat → Nat → ℚ) (fromCity : Nat) :
    ∀ (l : List Nat) (b : Nat),
      l.foldl (fun best c => if d fromCity c < d fromCity best then c else best) b = b
      ∨ l.foldl (fun best c => if d fromCity c < d fromCity best then c else best) b ∈ l := by
  intro l
  induction l with
  | nil => intro b; exact Or.inl rfl
  | cons c t ih =>
    intro b
    rw [List.foldl_cons]
    rcases ih (if d fromCity c < d fromCity b then c else b) with h | h
    · rw [h]
      by_cases hc : d fromCity c < d fromCity b
      · rw [if_pos hc]; exact Or.inr (List.mem_cons_self _ _)
      · rw [if_neg hc]; exact Or.inl rfl
    · exact Or.inr (List.mem_cons_of_mem _ h)

lemma findNearestCity_mem (d : Nat → Nat → ℚ) (fromCity : Nat) (cands : List Nat)
    (h : cands ≠ []) : findNearestCity d fromCity cands ∈ cands := by
  unfold findNearestCity
  rcases foldl_nearest_mem d fromCity cands (cands.headD 0) with heq | hmem
  · rw [heq]
    cases cands with
    | nil => exact absurd rfl h
    | cons a t => exact List.mem_cons_self _ _
  · exact hmem

/-- The city-placement loop of `bidirectionalHeuristicCrossover`
(`while (offspring.length < n)`), with the loop counter made explicit as
`fuel = n - offspring.length`; the `visited` set is exactly the set of
cities already in `acc`.  The inner `if remainingCities.length === 0`
safety break returns `acc` unchanged. -/
def bhxLoop (d : Nat → Nat → ℚ) (p1 p2 : List Nat) (clockwise : Bool) (n : Nat) :
    Nat → Nat → List Nat → List Nat
  | 0, _, acc => acc
  | fuel + 1, current, acc =>
    let allNeighbors := findNeighbors current p1 clockwise ++ findNeighbors current p2 clockwise
    let unvisitedNeighbors := allNeighbors.filter (fun c => decide (c ∉ acc))
    if unvisitedNeighbors.isEmpty then
      let remainingCities := (List.range n).filter (fun c => decide (c ∉ acc))
      if remainingCities.isEmpty then acc
      else
        let next := findNearestCity d current remainingCities
        bhxLoop d p1 p2 clockwise n fuel next (acc ++ [next])
    else
      let next := findNearestCity d current unvisitedNeighbors
      bhxLoop d p1 p2 clockwise n fuel next (acc ++ [next])

/-- `bidirectionalHeuristicCrossover` from src/algorithms/crossover.ts,
with the two random draws (traversal direction, start position in
parent 1) as explicit arguments. -/
def bidirectionalHeuristicCrossover (d : Nat → Nat → ℚ) (parent1 parent2 : Chromosome)
    (clockwise : Bool) (startIdx : Nat) : Chromosome :=
  let n := parent1.genes.length
  let start := parent1.genes.getD startIdx 0
  let genes := bhxLoop d parent1.genes parent2.genes clockwise n (n - 1) start [start]
  let dist := calculateTotalDistanceWithMatrix d genes
  ⟨genes, dist, dist⟩

lemma bhxLoop_spec (d : Nat → Nat → ℚ) (p1 p2 : List Nat) (cw : Bool) (n : Nat)
    (hp1 : p1.Perm (List.range n)) (hp2 : p2.Perm (List.range n)) :
    ∀ (fuel : Nat) (current : Nat) (acc : List Nat),
      acc ≠ [] → acc.Nodup → (∀ x ∈ acc, x < n) → acc.length + fuel = n →
      (bhxLoop d p1 p2 cw n fuel current acc).Nodup
        ∧ (∀ x ∈ bhxLoop d p1 p2 cw n fuel current acc, x < n)
        ∧ (bhxLoop d p1 p2 cw n fuel current acc).length = n := by
  have hn1 : p1.length = n := by rw [hp1.length_eq, List.length_range]
  have hn2 : p2.length = n := by rw [hp2.length_eq, List.length_range]
  intro fuel
  induction fuel with
  | zero =>
    intro current acc hne hnd hb hlen
    exact ⟨hnd, hb, by simpa using hlen⟩
  | succ fuel ih =>
    intro current acc hne hnd hb hlen
    have hnpos : 0 < n := by omega
    have hacclt : acc.length < n := by omega
    -- a helper: whatever `next` is appended, the invariant is preserved
    have hstep : ∀ next : Nat, next < n → next ∉ acc →
        (bhxLoop d p1 p2 cw n fuel next (acc ++ [next])).Nodup
          ∧ (∀ x ∈ bhxLoop d p1 p2 cw n fuel next (acc ++ [next]), x < n)
          ∧ (bhxLoop d p1 p2 cw n fuel next (acc ++ [next])).length = n := by
      intro next hlt hnotin
      apply ih
      · simp
      · rw [List.nodup_append]
        exact ⟨hnd, List.nodup_singleton _, by
          intro x hx hx'
          rw [List.mem_singleton] at hx'
          exact hnotin (hx' ▸ hx)⟩
      · intro x hx
        rcases List.mem_append.1 hx with h | h
        · exact hb x h
        · rw [List.mem_singleton] at h; omega
      · rw [List.length_append, List.length_singleton]; omega
    -- membership facts for the two candidate sources
    have hneigh : ∀ x, x ∈ findNeighbors current p1 cw ++ findNeighbors current p2 cw →
        x < n := by
      intro x hx
      rcases List.mem_append.1 hx with h | h <;>
        · unfold findNeighbors at h
          split at h <;>
          · rw [List.mem_singleton] at h
            subst h
            first
            | exact List.mem_range.1 (hp1.subset (getD_mem (by rw [hn1]; exact Nat.mod_lt _ hnpos) 0))
            | exact List.mem_range.1 (hp2.subset (getD_mem (by rw [hn2]; exact Nat.mod_lt _ hnpos) 0))
    show (bhxLoop d p1 p2 cw n (fuel + 1) current acc).Nodup ∧ _ ∧ _
    rw [bhxLoop]
    simp only []
    by_cases hu : ((findNeighbors current p1 cw ++ findNeighbors current p2 cw).filter
        (fun c => decide (c ∉ acc))).isEmpty
    · rw [if_pos hu]
      have hrem : ¬ ((List.range n).filter (fun c => decide (c ∉ acc))).isEmpty := by
        intro hempty
        rw [List.isEmpty_iff] at hempty
        have hall : ∀ x ∈ List.range n, ¬ (x ∉ acc) := by
          intro x hx hnot
          have : x ∈ (List.range n).filter (fun c => decide (c ∉ acc)) :=
            List.mem_filter.2 ⟨hx, by simpa using hnot⟩
          rw [hempty] at this
          exact absurd this (List.not_mem_nil x)
        have hsub : List.range n ⊆ acc := by
          intro x hx
          by_contra hc
          exact hall x hx hc
        have := (List.subperm_of_subset (List.nodup_range n) hsub).length_le
        rw [List.length_range] at this
        omega
      rw [if_neg hrem]
      set remainingCities := (List.range n).filter (fun c => decide (c ∉ acc)) with hremdef
      have hremne : remainingCities ≠ [] := by
        intro hc
        rw [← List.isEmpty_iff] at hc
        exact hrem hc
      have hmem := findNearestCity_mem d current remainingCities hremne
      have hmem' := List.mem_filter.1 hmem
      exact hstep _ (List.mem_range.1 hmem'.1) (by simpa using hmem'.2)
    · rw [if_neg hu]
      set unvisitedNeighbors := (findNeighbors current p1 cw ++ findNeighbors current p2 cw).filter
          (fun c => decide (c ∉ acc)) with hudef
      have hune : unvisitedNeighbors ≠ [] := by
        intro hc
        rw [← List.isEmpty_iff] at hc
        exact hu hc
      have hmem := findNearestCity_mem d current unvisitedNeighbors hune
      have hmem' := List.mem_filter.1 hmem
      exact hstep _ (hneigh _ hmem'.1) (by simpa using hmem'.2)

/-! ## Jumping gene operator (src/algorithms/jumpingGene.ts) -/

/-- The mask-partition loop of `jumpingGeneOperator` (push `genes[i]` to
`extractedGenes` when `mask[i] = 1`, else to `remainingGenes`). -/
def splitByMask (mask : Nat → Bool) : List Nat → Nat → List Nat × List Nat
  | [], _ => ([], [])
  | g :: t, i =>
    let er := splitByMask mask t (i + 1)
    if mask i then (g :: er.1, er.2) else (er.1, g :: er.2)

lemma splitByMask_perm (mask : Nat → Bool) :
    ∀ (l : List Nat) (i : Nat),
      ((splitByMask mask l i).1 ++ (splitByMask mask l i).2).Perm l := by
  intro l
  induction l with
  | nil => intro i; simp [splitByMask]
  | cons g t ih =>
    intro i
    rw [splitByMask]
    by_cases hm : mask i
    · simpa [hm] using (ih (i + 1)).cons g
    · simp only [hm, if_neg, Bool.false_eq_true, not_false_iff]
      exact List.perm_middle.trans ((ih (i + 1)).cons g)

/-- `jumpingGeneOperator` from src/algorithms/jumpingGene.ts, with the
random draws explicit: `r` is the gating draw (no jump when `r > PJG`),
`mask` the random binary mask, `insertPos` the random insertion point. -/
def jumpingGeneOperator (chromosome : Chromosome) (PJG : ℚ) (q : Nat)
    (r : ℚ) (mask : Nat → Bool) (insertPos : Nat) : Chromosome :=
  if r > PJG then chromosome
  else
    let genes := chromosome.genes
    let er := splitByMask mask genes 0
    let extractedGenes := er.1
    let remainingGenes := er.2
    let segmentLength := min q extractedGenes.length
    let segment := extractedGenes.take segmentLength
    let leftoverExtracted := extractedGenes.drop segmentLength
    let finalRemaining :=
      remainingGenes.filter (fun g => decide (g ∉ segment)) ++ leftoverExtracted
    ⟨finalRemaining.take insertPos ++ segment ++ finalRemaining.drop insertPos, 0, 0⟩

lemma jumpingGeneOperator_perm (chromosome : Chromosome) (PJG : ℚ) (q : Nat)
    (r : ℚ) (mask : Nat → Bool) (insertPos : Nat) (n : Nat)
    (hg : chromosome.genes.Perm (List.range n)) :
    (jumpingGeneOperator chromosome PJG q r mask insertPos).genes.Perm (List.range n) := by
  unfold jumpingGeneOperator
  by_cases hr : r > PJG
  · rw [if_pos hr]; exact hg
  rw [if_neg hr]
  simp only []
  set genes := chromosome.genes with hgenes
  set er := splitByMask mask genes 0 with herdef
  set segment := er.1.take (min q er.1.length) with hsegdef
  set leftover := er.1.drop (min q er.1.length) with hleftdef
  set fr := er.2.filter (fun g => decide (g ∉ segment)) ++ leftover with hfrdef
  have hsplit : (er.1 ++ er.2).Perm genes := splitByMask_perm mask genes 0
  have hnd : genes.Nodup := hg.nodup_iff.2 (List.nodup_range n)
  have hndsplit : (er.1 ++ er.2).Nodup := (hsplit.nodup_iff).2 hnd
  rw [List.nodup_append] at hndsplit
  have hdisj : er.1.Disjoint er.2 := hndsplit.2.2
  have hfilter : er.2.filter (fun g => decide (g ∉ segment)) = er.2 := by
    rw [List.filter_eq_self]
    intro a ha
    have : a ∉ segment := by
      intro hseg
      exact hdisj (List.take_subset _ _ hseg) ha
    simpa using this
  have hperm1 : (fr.take insertPos ++ segment ++ fr.drop insertPos).Perm (fr ++ segment) := by
    have h1 : fr.take insertPos ++ segment ++ fr.drop insertPos
        = fr.take insertPos ++ (segment ++ fr.drop insertPos) := by rw [List.append_assoc]
    have h2 : (fr.take insertPos ++ (segment ++ fr.drop insertPos)).Perm
        (fr.take insertPos ++ (fr.drop insertPos ++ segment)) :=
      (List.perm_append_comm).append_left _
    have h3 : fr.take insertPos ++ (fr.drop insertPos ++ segment)
        = (fr.take insertPos ++ fr.drop insertPos) ++ segment := by rw [List.append_assoc]
    have h4 : (fr.take insertPos ++ fr.drop insertPos) ++ segment = fr ++ segment := by
      rw [List.take_append_drop]
    rw [h1]
    exact h2.trans (h3 ▸ h4 ▸ List.Perm.refl _)
  have hperm2 : (fr ++ segment).Perm genes := by
    rw [hfrdef, hfilter]
    have h1 : er.2 ++ leftover ++ segment = er.2 ++ (leftover ++ segment) := by
      rw [List.append_assoc]
    have h2 : (er.2 ++ (leftover ++ segment)).Perm (er.2 ++ (segment ++ leftover)) :=
      (List.perm_append_comm).append_left _
    have h3 : er.2 ++ (segment ++ leftover) = er.2 ++ er.1 := by
      rw [hsegdef, hleftdef, List.take_append_drop]
    have h4 : (er.2 ++ er.1).Perm (er.1 ++ er.2) := List.perm_append_comm
    rw [h1]
    exact ((h2.trans (h3 ▸ List.Perm.refl _)).trans h4).trans hsplit
  exact (hperm1.trans hperm2).trans hg

/-- **C1.** For parents that are permutations of `0..n-1`, the BHX offspring
is again a permutation of `0..n-1` (no repeats, no omissions), for every
direction and start draw; and for every tour that is a permutation of
`0..n-1`, every `PJG`, `q` and every random draw, the output of the jumping
gene operator is again a permutation of `0..n-1`. -/
theorem bhx_and_jumpingGene_permutation (d : Nat → Nat → ℚ) (n : Nat)
    (parent1 parent2 : Chromosome) (clockwise : Bool) (startIdx : Nat)
    (tour : Chromosome) (PJG : ℚ) (q : Nat) (r : ℚ) (mask : Nat → Bool) (insertPos : Nat)
    (hp1 : parent1.genes.Perm (List.range n)) (hp2 : parent2.genes.Perm (List.range n))
    (hstart : startIdx < n) (ht : tour.genes.Perm (List.range n)) :
    (bidirectionalHeuristicCrossover d parent1 parent2 clockwise startIdx).genes.Perm
      (List.range n)
    ∧ (jumpingGeneOperator tour PJG q r mask insertPos).genes.Perm (List.range n) := by
  refine ⟨?_, jumpingGeneOperator_perm tour PJG q r mask insertPos n ht⟩
  have hn1 : parent1.genes.length = n := by rw [hp1.length_eq, List.length_range]
  have hstart' : startIdx < parent1.genes.length := by omega
  have hstartmem : parent1.genes.getD startIdx 0 ∈ parent1.genes := getD_mem hstart' 0
  have hstartlt : parent1.genes.getD startIdx 0 < n :=
    List.mem_range.1 (hp1.subset hstartmem)
  have hspec := bhxLoop_spec d parent1.genes parent2.genes clockwise n hp1 hp2
    (n - 1) (parent1.genes.getD startIdx 0) [parent1.genes.getD startIdx 0]
    (by simp) (List.nodup_singleton _)
    (by intro x hx; rw [List.mem_singleton] at hx; omega)
    (by simp; omega)
  obtain ⟨hnd, hbound, hlen⟩ := hspec
  have hsub : bhxLoop d parent1.genes parent2.genes clockwise n (n - 1)
      (parent1.genes.getD startIdx 0) [parent1.genes.getD startIdx 0] ⊆ List.range n := by
    intro x hx
    exact List.mem_range.2 (hbound x hx)
  have hsubperm := List.subperm_of_subset hnd hsub
  have hperm := hsubperm.perm_of_length_le (by rw [List.length_range, hlen])
  unfold bidirectionalHeuristicCrossover
  simpa [hn1] using hperm

/-- Witness for C1 at concrete parents, tour and draws. -/
theorem bhx_and_jumpingGene_permutation_witness :
    (([0, 1, 2] : List Nat).Perm (List.range 3) ∧ (0 : Nat) < 3)
    ∧ (bidirectionalHeuristicCrossover (fun a b => ((a : ℚ) + (b : ℚ)))
        ⟨[0, 1, 2], 0, 0⟩ ⟨[1, 2, 0], 0, 0⟩ true 0).genes.Perm (List.range 3)
    ∧ (jumpingGeneOperator ⟨[2, 0, 1], 0, 0⟩ (1 / 2) 2 (1 / 4)
        (fun i => i % 2 == 0) 1).genes.Perm (List.range 3) := by
  have h := bhx_and_jumpingGene_permutation (fun a b => ((a : ℚ) + (b : ℚ))) 3
    ⟨[0, 1, 2], 0, 0⟩ ⟨[1, 2, 0], 0, 0⟩ true 0 ⟨[2, 0, 1], 0, 0⟩ (1 / 2) 2 (1 / 4)
    (fun i => i % 2 == 0) 1 (by decide) (by decide) (by decide) (by decide)
  exact ⟨⟨by decide, by decide⟩, h.1, h.2⟩

/-! ## 2-Opt local search (src/algorithms/twoOpt.ts) -/

/-- The reversal applied by `twoOptOperator` when an improving pair `(i, j)`
is found: `genes.slice(0, i+1) ++ genes.slice(i+1, j+1).reverse() ++
genes.slice(j+1)`. -/
def twoOptMove (g : List Nat) (i j : Nat) : List Nat :=
  g.take (i + 1) ++ ((g.drop (i + 1)).take (j - i)).reverse ++ g.drop (j + 1)

/-- The improvement test of `twoOptOperator`: replacing edges
`(i, i+1), (j, (j+1) % n)` by `(i, j), (i+1, (j+1) % n)` strictly shortens
their combined length. -/
def improvesB (d : Nat → Nat → ℚ) (g : List Nat) (i j : Nat) : Bool :=
  decide (d (g.getD i 0) (g.getD j 0) + d (g.getD (i + 1) 0) (g.getD ((j + 1) % g.length) 0)
    < d (g.getD i 0) (g.getD (i + 1) 0) + d (g.getD j 0) (g.getD ((j + 1) % g.length) 0))

/-- The `(i, j)` pairs scanned by the double `for` loop of `twoOptOperator`
(`i` from `0` to `n-2`, `j` from `i+1` to `n-1`), in order. -/
def pairsList (n : Nat) : List (Nat × Nat) :=
  (List.range (n - 1)).flatMap
    (fun i => (List.range' (i + 1) (n - (i + 1))).map (fun j => (i, j)))

/-- One (i, j) iteration of the double loop: apply the reversal (and set the
`improved` flag) if the pair improves, else keep the state. -/
def twoOptStep (d : Nat → Nat → ℚ) (s : List Nat × Bool) (p : Nat × Nat) :
    List Nat × Bool :=
  if improvesB d s.1 p.1 p.2 then (twoOptMove s.1 p.1 p.2, true) else s

/-- One full pass of the double `for` loop, starting from `improved = false`. -/
def twoOptPass (d : Nat → Nat → ℚ) (g : List Nat) : List Nat × Bool :=
  (pairsList g.length).foldl (twoOptStep d) (g, false)

/-- Fuel bound for the `while (improved)` loop: the number of distinct tour
lengths over all permutations of the gene list.  Each improving pass
strictly decreases the (rational) tour length inside this finite value set,
so this many passes provably suffice (the source loop is unbounded; the
fixpoint property proved below shows it terminates). -/
def twoOptFuel (d : Nat → Nat → ℚ) (g : List Nat) : Nat :=
  ((g.permutations.map (calculateTotalDistanceWithMatrix d)).toFinset).card

/-- The `while (improved)` loop of `twoOptOperator`. -/
def twoOptLoop (d : Nat → Nat → ℚ) : Nat → List Nat → List Nat
  | 0, g => g
  | fuel + 1, g =>
    let p := twoOptPass d g
    if p.2 then twoOptLoop d fuel p.1 else g

/-- `twoOptOperator` from src/algorithms/twoOpt.ts: run the first-improvement
2-opt loop to a local optimum and return the tour with its recomputed cyclic
length. -/
def twoOptOperator (chromosome : Chromosome) (d : Nat → Nat → ℚ) : Chromosome :=
  let genes := twoOptLoop d (twoOptFuel d chromosome.genes) chromosome.genes
  let distance := calculateTotalDistanceWithMatrix d genes
  ⟨genes, distance, distance⟩

lemma mem_pairsList {n i j : Nat} : (i, j) ∈ pairsList n ↔ i < j ∧ j < n := by
  unfold pairsList
  rw [List.mem_flatMap]
  constructor
  · rintro ⟨a, ha, hmem⟩
    rw [List.mem_map] at hmem
    obtain ⟨b, hb, hpair⟩ := hmem
    cases hpair
    rw [List.mem_range'] at hb
    rw [List.mem_range] at ha
    obtain ⟨k, hk, hkeq⟩ := hb
    omega
  · rintro ⟨hij, hjn⟩
    refine ⟨i, List.mem_range.2 (by omega), List.mem_map.2 ⟨j, ?_, rfl⟩⟩
    rw [List.mem_range']
    exact ⟨j - (i + 1), by omega, by omega⟩

lemma twoOptMove_perm (g : List Nat) (i j : Nat) (hij : i ≤ j) :
    (twoOptMove g i j).Perm g := by
  unfold twoOptMove
  have hdrop : (g.drop (i + 1)).drop (j - i) = g.drop (j + 1) := by
    rw [List.drop_drop]
    congr 1
    omega
  have hsplit : g.take (i + 1) ++ ((g.drop (i + 1)).take (j - i) ++ g.drop (j + 1)) = g := by
    rw [← hdrop, List.take_append_drop, List.take_append_drop]
  conv_rhs => rw [← hsplit]
  rw [List.append_assoc]
  exact (((List.reverse_perm _).append_right _).append_left _)

lemma headD_take (l : List Nat) (k : Nat) (hk : k ≠ 0) :
    (l.take k).headD 0 = l.headD 0 := by
  rw [List.headD_eq_head?, List.headD_eq_head?, List.head?_take, if_neg hk]

lemma headD_drop (l : List Nat) (k : Nat) :
    (l.drop k).headD 0 = l.getD k 0 := by
  rw [List.headD_eq_head?, List.head?_drop, List.getD_eq_getElem?_getD]

lemma getLastD_take (l : List Nat) (i : Nat) (h : i < l.length) :
    (l.take (i + 1)).getLastD 0 = l.getD i 0 := by
  rw [List.take_succ, List.getElem?_eq_getElem h]
  simp only [Option.toList_some]
  rw [List.getLastD_concat, List.getD_eq_getElem _ _ h]

lemma getD_drop (l : List Nat) (k m : Nat) :
    (l.drop k).getD m 0 = l.getD (k + m) 0 := by
  rw [List.getD_eq_getElem?_getD, List.getD_eq_getElem?_getD, List.getElem?_drop]

lemma headD_reverse (l : List Nat) : l.reverse.headD 0 = l.getLastD 0 := by
  rw [List.headD_eq_head?, List.head?_reverse, List.getLastD_eq_getLast?]

lemma getLastD_reverse (l : List Nat) : l.reverse.getLastD 0 = l.headD 0 := by
  rw [List.getLastD_eq_getLast?, List.getLast?_reverse, List.headD_eq_head?]

lemma headD_append_left (xs ys : List Nat) (hx : xs ≠ []) :
    (xs ++ ys).headD 0 = xs.headD 0 := by
  rw [List.headD_eq_head?, List.headD_eq_head?, List.head?_append_of_ne_nil _ hx]

lemma getLastD_append_right (xs ys : List Nat) (hy : ys ≠ []) :
    (xs ++ ys).getLastD 0 = ys.getLastD 0 := by
  rw [List.getLastD_eq_getLast?, List.getLastD_eq_getLast?,
    List.getLast?_append_of_ne_nil _ hy]

/-- The crux: under a symmetric matrix, an improving 2-opt reversal strictly
decreases the cyclic tour length. -/
lemma twoOptMove_decreases (d : Nat → Nat → ℚ) (hsym : ∀ a b, d a b = d b a)
    (g : List Nat) (i j : Nat) (hij : i < j) (hjn : j < g.length)
    (himp : improvesB d g i j = true) :
    calculateTotalDistanceWithMatrix d (twoOptMove g i j)
      < calculateTotalDistanceWithMatrix d g := by
  set n := g.length with hn
  set P := g.take (i + 1) with hP
  set S := (g.drop (i + 1)).take (j - i) with hS
  set T := g.drop (j + 1) with hT
  have hnpos : 0 < n := by omega
  have hPlen : P.length = i + 1 := by
    rw [hP, List.length_take]; omega
  have hSlen : S.length = j - i := by
    rw [hS, List.length_take, List.length_drop]; omega
  have hTlen : T.length = n - (j + 1) := by
    rw [hT, List.length_drop]
  have hPne : P ≠ [] := by
    intro hc; rw [hc] at hPlen; simp at hPlen
  have hSne : S ≠ [] := by
    intro hc; rw [hc] at hSlen; simp at hSlen; omega
  have hgsplit : g = P ++ S ++ T := by
    rw [hP, hS, hT, List.append_assoc]
    have hdrop : (g.drop (i + 1)).drop (j - i) = g.drop (j + 1) := by
      rw [List.drop_drop]; congr 1; omega
    rw [← hdrop, List.take_append_drop, List.take_append_drop]
  have hmove : twoOptMove g i j = P ++ S.reverse ++ T := rfl
  -- named endpoints
  have hPl : P.getLastD 0 = g.getD i 0 := getLastD_take g i (by omega)
  have hPh : P.headD 0 = g.headD 0 := headD_take g (i + 1) (by omega)
  have hSh : S.headD 0 = g.getD (i + 1) 0 := by
    rw [hS, headD_take _ _ (by omega), headD_drop]
  have hSl : S.getLastD 0 = g.getD j 0 := by
    have hji : j - i = (j - i - 1) + 1 := by omega
    rw [hS, hji, getLastD_take _ _ (by rw [List.length_drop]; omega), getD_drop]
    congr 1
    omega
  have hrevne : S.reverse ≠ [] := by
    intro hc
    exact hSne (by simpa using congrArg List.reverse hc)
  have himp' : d (g.getD i 0) (g.getD j 0)
      + d (g.getD (i + 1) 0) (g.getD ((j + 1) % n) 0)
      < d (g.getD i 0) (g.getD (i + 1) 0) + d (g.getD j 0) (g.getD ((j + 1) % n) 0) := by
    have := of_decide_eq_true himp
    exact this
  by_cases hTne : T = []
  · -- j = n - 1 : the second replaced edge is the closing edge (j+1) % n = 0
    have hj1 : j + 1 = n := by
      have h0 : T.length = 0 := by simp [hTne]
      rw [hTlen] at h0
      omega
    have hmod : (j + 1) % n = 0 := by rw [hj1, Nat.mod_self]
    have hgPS : g = P ++ S := by rw [hgsplit, hTne, List.append_nil]
    have hmPS : twoOptMove g i j = P ++ S.reverse := by rw [hmove, hTne, List.append_nil]
    have hclose : g.getD ((j + 1) % n) 0 = P.headD 0 := by
      rw [hmod, getD_zero_eq_headD, hPh]
    have e1 : calculateTotalDistanceWithMatrix d g
        = pathLength d P + d (P.getLastD 0) (S.headD 0) + pathLength d S
          + d (S.getLastD 0) (P.headD 0) := by
      rw [calc_eq_path_add_close d g (by rw [hgPS]; simp [hPne]), hgPS,
        pathLength_append d P S hPne hSne,
        getLastD_append_right P S hSne, headD_append_left P S hPne]
    have e2 : calculateTotalDistanceWithMatrix d (twoOptMove g i j)
        = pathLength d P + d (P.getLastD 0) (S.getLastD 0) + pathLength d S
          + d (S.headD 0) (P.headD 0) := by
      rw [hmPS, calc_eq_path_add_close d _ (by simp [hPne]),
        pathLength_append d P S.reverse hPne hrevne,
        getLastD_append_right P S.reverse hrevne, headD_append_left P S.reverse hPne,
        pathLength_reverse d hsym, headD_reverse, getLastD_reverse]
    rw [hmod, getD_zero_eq_headD] at himp'
    rw [e1, e2, hPl, hSh, hSl, hPh]
    linarith [himp']
  · -- T ≠ [] : both replaced edges are interior (j + 1 < n)
    have hj1 : j + 1 < n := by
      rcases Nat.lt_or_ge (j + 1) n with h | h
      · exact h
      · exfalso
        apply hTne
        rw [hT]
        apply List.drop_eq_nil_of_le
        omega
    have hmod : (j + 1) % n = j + 1 := Nat.mod_eq_of_lt hj1
    have hTh : T.headD 0 = g.getD (j + 1) 0 := by rw [hT, headD_drop]
    have hSTne : S ++ T ≠ [] := by simp [hSne]
    have hSrTne : S.reverse ++ T ≠ [] := by simp [hrevne]
    have e1 : calculateTotalDistanceWithMatrix d g
        = pathLength d P + d (P.getLastD 0) (S.headD 0) + pathLength d S
          + d (S.getLastD 0) (T.headD 0) + pathLength d T
          + d (T.getLastD 0) (P.headD 0) := by
      rw [calc_eq_path_add_close d g (by rw [hgsplit]; simp [hPne]), hgsplit,
        List.append_assoc, pathLength_append d P (S ++ T) hPne hSTne,
        pathLength_append d S T hSne hTne,
        getLastD_append_right P (S ++ T) hSTne, getLastD_append_right S T hTne,
        headD_append_left P (S ++ T) hPne, headD_append_left S T hSne]
      ring
    have e2 : calculateTotalDistanceWithMatrix d (twoOptMove g i j)
        = pathLength d P + d (P.getLastD 0) (S.getLastD 0) + pathLength d S
          + d (S.headD 0) (T.headD 0) + pathLength d T
          + d (T.getLastD 0) (P.headD 0) := by
      rw [hmove, List.append_assoc, calc_eq_path_add_close d _ (by simp [hPne]),
        pathLength_append d P (S.reverse ++ T) hPne hSrTne,
        pathLength_append d S.reverse T hrevne hTne,
        getLastD_append_right P (S.reverse ++ T) hSrTne,
        getLastD_append_right S.reverse T hTne,
        headD_append_left P (S.reverse ++ T) hPne,
        headD_append_left S.reverse T hrevne,
        pathLength_reverse d hsym, headD_reverse, getLastD_reverse]
      ring
    rw [e1, e2, hPl, hSh, hSl, hTh]
    rw [hmod] at himp'
    linarith [himp']

lemma foldl_twoOptStep_flag (d : Nat → Nat → ℚ) :
    ∀ (ps : List (Nat × Nat)) (s : List Nat × Bool), s.2 = true →
      (ps.foldl (twoOptStep d) s).2 = true := by
  intro ps
  induction ps with
  | nil => intro s h; exact h
  | cons p ps ih =>
    intro s h
    rw [List.foldl_cons]
    apply ih
    unfold twoOptStep
    split
    · rfl
    · exact h

lemma foldl_twoOptStep_false (d : Nat → Nat → ℚ) :
    ∀ (ps : List (Nat × Nat)) (g : List Nat),
      (ps.foldl (twoOptStep d) (g, false)).2 = false →
      (ps.foldl (twoOptStep d) (g, false)).1 = g
        ∧ ∀ p ∈ ps, improvesB d g p.1 p.2 = false := by
  intro ps
  induction ps with
  | nil => intro g _; exact ⟨rfl, by simp⟩
  | cons p ps ih =>
    intro g h
    rw [List.foldl_cons] at h ⊢
    by_cases himp : improvesB d g p.1 p.2 = true
    · exfalso
      have hstep : twoOptStep d (g, false) p = (twoOptMove g p.1 p.2, true) := by
        unfold twoOptStep
        rw [if_pos himp]
      rw [hstep] at h
      rw [foldl_twoOptStep_flag d ps _ rfl] at h
      simp at h
    · have hstep : twoOptStep d (g, false) p = (g, false) := by
        unfold twoOptStep
        rw [if_neg himp]
      rw [hstep] at h ⊢
      obtain ⟨h1, h2⟩ := ih g h
      refine ⟨h1, ?_⟩
      intro pp hpp
      rcases List.mem_cons.1 hpp with rfl | hmem
      · simpa using himp
      · exact h2 pp hmem

lemma foldl_twoOptStep_bound (d : Nat → Nat → ℚ) (hsym : ∀ a b, d a b = d b a) (n : Nat) :
    ∀ (ps : List (Nat × Nat)) (g : List Nat) (b : Bool),
      (∀ p ∈ ps, p.1 < p.2 ∧ p.2 < n) → g.length = n →
      (ps.foldl (twoOptStep d) (g, b)).1.Perm g
        ∧ calculateTotalDistanceWithMatrix d (ps.foldl (twoOptStep d) (g, b)).1
            ≤ calculateTotalDistanceWithMatrix d g
        ∧ ((ps.foldl (twoOptStep d) (g, b)).2 = true → b = false →
            calculateTotalDistanceWithMatrix d (ps.foldl (twoOptStep d) (g, b)).1
              < calculateTotalDistanceWithMatrix d g) := by
  intro ps
  induction ps with
  | nil =>
    intro g b _ _
    refine ⟨List.Perm.refl _, le_refl _, ?_⟩
    intro h1 h2
    rw [h2] at h1
    exact absurd h1 Bool.false_ne_true
  | cons p ps ih =>
    intro g b hps hlen
    rw [List.foldl_cons]
    by_cases himp : improvesB d g p.1 p.2 = true
    · have hstep : twoOptStep d (g, b) p = (twoOptMove g p.1 p.2, true) := by
        unfold twoOptStep
        rw [if_pos himp]
      rw [hstep]
      have hp := hps p (List.mem_cons_self _ _)
      have hmperm : (twoOptMove g p.1 p.2).Perm g := twoOptMove_perm g p.1 p.2 (le_of_lt hp.1)
      have hmdec : calculateTotalDistanceWithMatrix d (twoOptMove g p.1 p.2)
          < calculateTotalDistanceWithMatrix d g :=
        twoOptMove_decreases d hsym g p.1 p.2 hp.1 (by omega) himp
      have hmlen : (twoOptMove g p.1 p.2).length = n := by
        rw [hmperm.length_eq, hlen]
      obtain ⟨ihperm, ihle, _⟩ := ih (twoOptMove g p.1 p.2) true
        (fun q hq => hps q (List.mem_cons_of_mem _ hq)) hmlen
      refine ⟨ihperm.trans hmperm, le_of_lt (lt_of_le_of_lt ihle hmdec), ?_⟩
      intro _ _
      exact lt_of_le_of_lt ihle hmdec
    · have hstep : twoOptStep d (g, b) p = (g, b) := by
        unfold twoOptStep
        rw [if_neg himp]
      rw [hstep]
      exact ih g b (fun q hq => hps q (List.mem_cons_of_mem _ hq)) hlen

lemma twoOptPass_perm (d : Nat → Nat → ℚ) (hsym : ∀ a b, d a b = d b a) (g : List Nat) :
    (twoOptPass d g).1.Perm g :=
  (foldl_twoOptStep_bound d hsym g.length (pairsList g.length) g false
    (fun p hp => by
      obtain ⟨h1, h2⟩ := mem_pairsList.1 (by simpa using hp)
      exact ⟨h1, h2⟩) rfl).1

lemma twoOptPass_decrease (d : Nat → Nat → ℚ) (hsym : ∀ a b, d a b = d b a)
    (g : List Nat) (h : (twoOptPass d g).2 = true) :
    calculateTotalDistanceWithMatrix d (twoOptPass d g).1
      < calculateTotalDistanceWithMatrix d g :=
  (foldl_twoOptStep_bound d hsym g.length (pairsList g.length) g false
    (fun p hp => by
      obtain ⟨h1, h2⟩ := mem_pairsList.1 (by simpa using hp)
      exact ⟨h1, h2⟩) rfl).2.2 h rfl

lemma twoOptPass_false (d : Nat → Nat → ℚ) (g : List Nat)
    (h : (twoOptPass d g).2 = false) :
    (twoOptPass d g).1 = g
      ∧ ∀ i j, i < j → j < g.length → improvesB d g i j = false := by
  obtain ⟨h1, h2⟩ := foldl_twoOptStep_false d (pairsList g.length) g h
  refine ⟨h1, ?_⟩
  intro i j hij hjn
  exact h2 (i, j) (mem_pairsList.2 ⟨hij, hjn⟩)

/-- Proof helper: the finite set of tour lengths over all permutations of a
gene list. -/
def tourLens (d : Nat → Nat → ℚ) (g0 : List Nat) : Finset ℚ :=
  (g0.permutations.map (calculateTotalDistanceWithMatrix d)).toFinset

/-- Proof helper: the loop measure — how many achievable tour lengths lie
strictly below the current one. -/
def twoOptMu (d : Nat → Nat → ℚ) (g0 g : List Nat) : Nat :=
  ((tourLens d g0).filter (fun x => x < calculateTotalDistanceWithMatrix d g)).card

lemma calc_mem_tourLens (d : Nat → Nat → ℚ) {g0 g : List Nat} (h : g.Perm g0) :
    calculateTotalDistanceWithMatrix d g ∈ tourLens d g0 := by
  unfold tourLens
  rw [List.mem_toFinset, List.mem_map]
  exact ⟨g, List.mem_permutations.2 h, rfl⟩

lemma twoOptLoop_fix (d : Nat → Nat → ℚ) (hsym : ∀ a b, d a b = d b a) (g0 : List Nat) :
    ∀ (fuel : Nat) (g : List Nat), g.Perm g0 → twoOptMu d g0 g < fuel →
      (twoOptLoop d fuel g).Perm g0 ∧ (twoOptPass d (twoOptLoop d fuel g)).2 = false := by
  intro fuel
  induction fuel with
  | zero =>
    intro g _ hmu
    exact absurd hmu (Nat.not_lt_zero _)
  | succ fuel ih =>
    intro g hperm hmu
    rw [twoOptLoop]
    by_cases hflag : (twoOptPass d g).2 = true
    · rw [if_pos hflag]
      have hdec := twoOptPass_decrease d hsym g hflag
      have hperm' : (twoOptPass d g).1.Perm g0 := (twoOptPass_perm d hsym g).trans hperm
      have hmu' : twoOptMu d g0 (twoOptPass d g).1 < twoOptMu d g0 g := by
        apply Finset.card_lt_card
        rw [Finset.ssubset_iff_of_subset]
        · exact ⟨calculateTotalDistanceWithMatrix d (twoOptPass d g).1,
            Finset.mem_filter.2 ⟨calc_mem_tourLens d hperm', hdec⟩,
            fun hc => absurd (Finset.mem_filter.1 hc).2 (lt_irrefl _)⟩
        · intro x hx
          obtain ⟨hx1, hx2⟩ := Finset.mem_filter.1 hx
          exact Finset.mem_filter.2 ⟨hx1, lt_trans hx2 hdec⟩
      exact ih _ hperm' (by omega)
    · rw [if_neg hflag]
      exact ⟨hperm, by simpa using hflag⟩

lemma twoOptMu_lt_fuel (d : Nat → Nat → ℚ) (g : List Nat) :
    twoOptMu d g g < twoOptFuel d g := by
  have hF : twoOptFuel d g = (tourLens d g).card := rfl
  unfold twoOptMu
  rw [hF]
  apply Finset.card_lt_card
  rw [Finset.ssubset_iff_of_subset (Finset.filter_subset _ _)]
  exact ⟨calculateTotalDistanceWithMatrix d g, calc_mem_tourLens d (List.Perm.refl g),
    fun hc => absurd (Finset.mem_filter.1 hc).2 (lt_irrefl _)⟩

/-- **C3.** For every tour and every (symmetric, per the data model) distance
matrix, the 2-opt loop terminates — the fuel `twoOptFuel` provably suffices,
the result being a fixpoint of a full pass — and in the returned tour no
pair of edges `(i, i+1)` and `(j, (j+1) % n)` can be replaced by `(i, j)` and
`(i+1, (j+1) % n)` with strictly smaller combined length; the `distance`
field equals the cyclic tour length of the returned genes. -/
theorem twoOptOperator_spec (d : Nat → Nat → ℚ) (hsym : ∀ a b, d a b = d b a)
    (chromosome : Chromosome) :
    (∀ i j, i < j → j < (twoOptOperator chromosome d).genes.length →
      ¬ (d ((twoOptOperator chromosome d).genes.getD i 0)
            ((twoOptOperator chromosome d).genes.getD j 0)
          + d ((twoOptOperator chromosome d).genes.getD (i + 1) 0)
              ((twoOptOperator chromosome d).genes.getD
                ((j + 1) % (twoOptOperator chromosome d).genes.length) 0)
        < d ((twoOptOperator chromosome d).genes.getD i 0)
            ((twoOptOperator chromosome d).genes.getD (i + 1) 0)
          + d ((twoOptOperator chromosome d).genes.getD j 0)
              ((twoOptOperator chromosome d).genes.getD
                ((j + 1) % (twoOptOperator chromosome d).genes.length) 0)))
    ∧ (twoOptOperator chromosome d).distance
        = calculateTotalDistanceWithMatrix d (twoOptOperator chromosome d).genes
    ∧ (twoOptOperator chromosome d).genes.Perm chromosome.genes := by
  have hfix := twoOptLoop_fix d hsym chromosome.genes (twoOptFuel d chromosome.genes)
    chromosome.genes (List.Perm.refl _) (twoOptMu_lt_fuel d chromosome.genes)
  obtain ⟨hperm, hflag⟩ := hfix
  have hgenes : (twoOptOperator chromosome d).genes
      = twoOptLoop d (twoOptFuel d chromosome.genes) chromosome.genes := rfl
  obtain ⟨_, hnoimp⟩ := twoOptPass_false d _ hflag
  refine ⟨?_, rfl, by rw [hgenes]; exact hperm⟩
  intro i j hij hjn
  have := hnoimp i j hij (by rw [← hgenes]; exact hjn)
  rw [improvesB] at this
  rw [hgenes]
  simpa using this

/-- Witness for C3: the all-zero matrix is symmetric; concrete tour. -/
theorem twoOptOperator_spec_witness :
    (∀ a b : Nat, (fun _ _ => (0 : ℚ)) a b = (fun _ _ => (0 : ℚ)) b a)
    ∧ (twoOptOperator ⟨[0, 1, 2, 3], 0, 0⟩ (fun _ _ => (0 : ℚ))).genes.Perm [0, 1, 2, 3] :=
  ⟨fun _ _ => rfl,
    (twoOptOperator_spec (fun _ _ => (0 : ℚ)) (fun _ _ => rfl) ⟨[0, 1, 2, 3], 0, 0⟩).2.2⟩

/-! ## Elitism (src/algorithms/GAJGHO.ts runGeneration step 7,
src/algorithms/StandardGA.ts runGeneration) -/

/-- Ascending sort by `distance`, modelling the JS
`sort((a, b) => a.distance - b.distance)`. -/
def sortByDistance (l : List Chromosome) : List Chromosome :=
  l.mergeSort (fun a b => decide (a.distance ≤ b.distance))

lemma sortByDistance_perm (l : List Chromosome) : (sortByDistance l).Perm l :=
  List.mergeSort_perm l _

lemma sortByDistance_sorted (l : List Chromosome) :
    (sortByDistance l).Pairwise (fun a b => a.distance ≤ b.distance) := by
  have h := @List.sorted_mergeSort Chromosome
    (fun a b : Chromosome => decide (a.distance ≤ b.distance))
    (fun a b c hab hbc => by
      rw [decide_eq_true_iff] at hab hbc ⊢
      exact le_trans hab hbc)
    (fun a b => by
      rcases le_total a.distance b.distance with h | h <;> simp [h]) l
  exact h.imp (fun hab => by rwa [decide_eq_true_iff] at hab)

lemma headD_mem {α : Type} {l : List α} (h : l ≠ []) (d : α) : l.headD d ∈ l := by
  cases l with
  | nil => exact absurd rfl h
  | cons a t => exact List.mem_cons_self _ _

lemma headD_mem_take {α : Type} {l : List α} (h : l ≠ []) {k : Nat} (hk : 1 ≤ k)
    (d : α) : l.headD d ∈ l.take k := by
  cases l with
  | nil => exact absurd rfl h
  | cons a t =>
    cases k with
    | zero => omega
    | succ m =>
      rw [List.take_succ_cons]
      exact List.mem_cons_self _ _

lemma sortByDistance_headD_le (l : List Chromosome) (c : Chromosome) (hc : c ∈ l) :
    ((sortByDistance l).headD dfltC).distance ≤ c.distance := by
  have hne : sortByDistance l ≠ [] := by
    intro hnil
    have hlen := (sortByDistance_perm l).length_eq
    rw [hnil] at hlen
    rw [List.eq_nil_of_length_eq_zero hlen.symm] at hc
    simp at hc
  have hmem : c ∈ sortByDistance l := (sortByDistance_perm l).mem_iff.2 hc
  obtain ⟨a, t, hat⟩ := List.exists_cons_of_ne_nil hne
  rw [hat] at hmem ⊢
  have hpw := sortByDistance_sorted l
  rw [hat] at hpw
  rw [List.pairwise_cons] at hpw
  rcases List.mem_cons.1 hmem with rfl | hmem'
  · simp
  · simpa using hpw.1 c hmem'

lemma sortByDistance_headD_mem (l : List Chromosome) (h : l ≠ []) :
    (sortByDistance l).headD dfltC ∈ l := by
  have hne : sortByDistance l ≠ [] := by
    intro hnil
    have := (sortByDistance_perm l).length_eq
    rw [hnil] at this
    cases l with
    | nil => exact absurd rfl h
    | cons a t => simp at this
  exact (sortByDistance_perm l).mem_iff.1 (headD_mem hne dfltC)

/-- Step 7 (elitism) of `GAJGHO.runGeneration` (lines 78-90): the best
`eliteCount` tours of the previous population are spliced over the worst
offspring and the merged population re-sorted.  `offspring` stands for the
result of the (randomized) steps 1-6, universally quantified.  The slice
end `populationSize - eliteCount` is the `Nat` difference, which matches
the JS `slice` for the configurations with `eliteCount ≤ populationSize`
assumed by the theorem below. -/
def gajghoNextPopulation (prev offspring : List Chromosome)
    (populationSize eliteCount : Nat) : List Chromosome :=
  let sortedPrevious := sortByDistance prev
  let elites := sortedPrevious.take eliteCount
  let sortedOffspring := sortByDistance offspring
  sortByDistance (sortedOffspring.take (populationSize - eliteCount) ++ elites)

/-- `StandardGA.runGeneration`: the previous population is sorted, its best
`eliteCount` members kept, the rest filled by (randomized) crossover and
mutation — `rest` stands for those — and `updateStats` re-sorts. -/
def standardGANextPopulation (prev rest : List Chromosome) (eliteCount : Nat) :
    List Chromosome :=
  sortByDistance ((sortByDistance prev).take eliteCount ++ rest)

/-- **C2.** For GA-JGHO and StandardGA with `eliteCount ≥ 1`, the minimum
tour length after `runGeneration()` is at most the minimum tour length of
the previous population, whatever the randomized offspring are, because the
best tours of the previous generation are carried over unchanged. -/
theorem elitism_monotonicity (prev offspring rest : List Chromosome)
    (populationSize eliteCount : Nat) (mp mg ms : ℚ)
    (helite : 1 ≤ eliteCount) (_hconf : eliteCount ≤ populationSize) (hprev : prev ≠ [])
    (hmp : (prev.map Chromosome.distance).minimum = (mp : WithTop ℚ))
    (hmg : ((gajghoNextPopulation prev offspring populationSize eliteCount).map
        Chromosome.distance).minimum = (mg : WithTop ℚ))
    (hms : ((standardGANextPopulation prev rest eliteCount).map
        Chromosome.distance).minimum = (ms : WithTop ℚ)) :
    mg ≤ mp ∧ ms ≤ mp := by
  set b := (sortByDistance prev).headD dfltC with hb
  have hbmem : b ∈ prev := sortByDistance_headD_mem prev hprev
  have hsortne : sortByDistance prev ≠ [] := by
    intro hnil
    have := (sortByDistance_perm prev).length_eq
    rw [hnil] at this
    cases prev with
    | nil => exact absurd rfl hprev
    | cons a t => simp at this
  have hbelite : b ∈ (sortByDistance prev).take eliteCount :=
    headD_mem_take hsortne helite dfltC
  -- b.distance ≤ mp
  have hmp' := List.minimum_eq_coe_iff.1 hmp
  obtain ⟨c, hc, hceq⟩ := List.mem_map.1 hmp'.1
  have hble : b.distance ≤ mp := hceq ▸ sortByDistance_headD_le prev c hc
  constructor
  · have hmg' := List.minimum_eq_coe_iff.1 hmg
    have hbmem2 : b ∈ gajghoNextPopulation prev offspring populationSize eliteCount := by
      unfold gajghoNextPopulation
      exact (sortByDistance_perm _).mem_iff.2 (List.mem_append.2 (Or.inr hbelite))
    have := hmg'.2 b.distance (List.mem_map.2 ⟨b, hbmem2, rfl⟩)
    exact le_trans this hble
  · have hms' := List.minimum_eq_coe_iff.1 hms
    have hbmem2 : b ∈ standardGANextPopulation prev rest eliteCount := by
      unfold standardGANextPopulation
      exact (sortByDistance_perm _).mem_iff.2 (List.mem_append.2 (Or.inl hbelite))
    have := hms'.2 b.distance (List.mem_map.2 ⟨b, hbmem2, rfl⟩)
    exact le_trans this hble

lemma sortByDistance_singleton (c : Chromosome) : sortByDistance [c] = [c] :=
  List.perm_singleton.1 (sortByDistance_perm [c])

/-- Witness for C2 at concrete singleton populations. -/
theorem elitism_monotonicity_witness :
    (1 ≤ 1 ∧ ([(⟨[0, 1], 5, 5⟩ : Chromosome)] : List Chromosome) ≠ [])
    ∧ (5 : ℚ) ≤ (5 : ℚ) ∧ (5 : ℚ) ≤ (5 : ℚ) := by
  have hprev : ([(⟨[0, 1], 5, 5⟩ : Chromosome)] : List Chromosome) ≠ [] := by simp
  have hg : gajghoNextPopulation [⟨[0, 1], 5, 5⟩] [⟨[1, 0], 3, 3⟩] 1 1 = [⟨[0, 1], 5, 5⟩] := by
    unfold gajghoNextPopulation
    simp [sortByDistance_singleton]
  have hs : standardGANextPopulation [⟨[0, 1], 5, 5⟩] [] 1 = [⟨[0, 1], 5, 5⟩] := by
    unfold standardGANextPopulation
    simp [sortByDistance_singleton]
  have hmin : (([(⟨[0, 1], 5, 5⟩ : Chromosome)].map Chromosome.distance).minimum)
      = ((5 : ℚ) : WithTop ℚ) :=
    List.minimum_eq_coe_iff.2 ⟨by simp, by simp⟩
  refine ⟨⟨le_refl 1, hprev⟩, ?_⟩
  exact elitism_monotonicity [⟨[0, 1], 5, 5⟩] [⟨[1, 0], 3, 3⟩] []
    1 1 5 5 5 (le_refl 1) (le_refl 1) hprev hmin (by rw [hg]; exact hmin)
    (by rw [hs]; exact hmin)

/-! ## Random initialization (src/algorithms/initialization.ts,
bundled in src/types/algorithm.ts in this repository) -/

/-- The JS in-place swap `[g[i], g[j]] = [g[j], g[i]]` on a list. -/
def listSwap (l : List Nat) (i j : Nat) : List Nat :=
  (l.set i (l.getD j 0)).set j (l.getD i 0)

lemma cons_set_getD_perm (a x : Nat) :
    ∀ (t : List Nat) (m : Nat), m < t.length →
      (t.getD m x :: t.set m a).Perm (a :: t) := by
  intro t
  induction t with
  | nil => intro m hm; simp at hm
  | cons b u ih =>
    intro m hm
    cases m with
    | zero =>
      rw [List.getD_cons_zero, List.set_cons_zero]
      exact List.Perm.swap a b u
    | succ k =>
      rw [List.getD_cons_succ, List.set_cons_succ]
      have hk : k < u.length := by simpa using hm
      have h1 : (u.getD k x :: b :: u.set k a).Perm (b :: u.getD k x :: u.set k a) :=
        List.Perm.swap _ _ _
      have h2 : (b :: u.getD k x :: u.set k a).Perm (b :: a :: u) :=
        (ih k hk).cons b
      exact (h1.trans h2).trans (List.Perm.swap _ _ _)

lemma listSwap_comm (l : List Nat) (i j : Nat) : listSwap l i j = listSwap l j i := by
  unfold listSwap
  by_cases hij : i = j
  · rw [hij]
  · rw [List.set_comm _ _ _ hij]

lemma listSwap_perm : ∀ (l : List Nat) (i j : Nat), i < l.length → j < l.length →
    (listSwap l i j).Perm l := by
  intro l
  induction l with
  | nil => intro i j hi _; simp at hi
  | cons a t ih =>
    intro i j hi hj
    cases i with
    | zero =>
      cases j with
      | zero =>
        unfold listSwap
        simp
      | succ m =>
        unfold listSwap
        rw [List.getD_cons_succ, List.getD_cons_zero, List.set_cons_zero,
          List.set_cons_succ]
        have hm : m < t.length := by simpa using hj
        exact cons_set_getD_perm a 0 t m hm
    | succ k =>
      cases j with
      | zero =>
        rw [listSwap_comm]
        unfold listSwap
        rw [List.getD_cons_succ, List.getD_cons_zero, List.set_cons_zero,
          List.set_cons_succ]
        have hk : k < t.length := by simpa using hi
        exact cons_set_getD_perm a 0 t k hk
      | succ m =>
        unfold listSwap
        rw [List.getD_cons_succ, List.getD_cons_succ, List.set_cons_succ,
          List.set_cons_succ]
        have hk : k < t.length := by simpa using hi
        have hm : m < t.length := by simpa using hj
        exact (ih k m hk hm).cons a

/-- The Fisher–Yates loop of `generateRandomChromosome`
(`for i = n-1 downto 1: j = floor(random * (i+1)); swap`).  `rnd i` models
the draw at index `i`, reduced `mod (i+1)` to the range JS produces. -/
def fisherYates (l : List Nat) (rnd : Nat → Nat) : List Nat :=
  ((List.range' 1 (l.length - 1)).reverse).foldl
    (fun g i => listSwap g i (rnd i % (i + 1))) l

lemma fisherYates_foldl_perm (rnd : Nat → Nat) (l : List Nat) :
    ∀ (idxs : List Nat) (g : List Nat), (∀ i ∈ idxs, i < l.length) → g.Perm l →
      (idxs.foldl (fun g i => listSwap g i (rnd i % (i + 1))) g).Perm l := by
  intro idxs
  induction idxs with
  | nil => intro g _ hg; exact hg
  | cons i idxs ih =>
    intro g hidx hg
    rw [List.foldl_cons]
    have hi : i < g.length := by
      rw [hg.length_eq]
      exact hidx i (List.mem_cons_self _ _)
    have hj : rnd i % (i + 1) < g.length := by
      have := Nat.mod_lt (rnd i) (show 0 < i + 1 by omega)
      omega
    exact ih _ (fun x hx => hidx x (List.mem_cons_of_mem _ hx))
      ((listSwap_perm g i (rnd i % (i + 1)) hi hj).trans hg)

lemma fisherYates_perm (l : List Nat) (rnd : Nat → Nat) :
    (fisherYates l rnd).Perm l := by
  unfold fisherYates
  apply fisherYates_foldl_perm rnd l
  · intro i hi
    rw [List.mem_reverse, List.mem_range'] at hi
    obtain ⟨k, hk, rfl⟩ := hi
    omega
  · exact List.Perm.refl l

/-- `generateRandomChromosome` from the initialization module: a
Fisher–Yates shuffle of `[0, ..., cityCount-1]`. -/
def generateRandomChromosome (cityCount : Nat) (rnd : Nat → Nat) : List Nat :=
  fisherYates (List.range cityCount) rnd

lemma generateRandomChromosome_perm (cityCount : Nat) (rnd : Nat → Nat) :
    (generateRandomChromosome cityCount rnd).Perm (List.range cityCount) :=
  fisherYates_perm _ rnd

/-- `createChromosome` from src/utils/distance.ts: a chromosome whose
fitness and distance are the tour length (computed here through the distance
matrix, which agrees with the per-city computation of the source). -/
def createChromosome (d : Nat → Nat → ℚ) (genes : List Nat) : Chromosome :=
  let distance := calculateTotalDistanceWithMatrix d genes
  ⟨genes, distance, distance⟩

/-- `initializePopulation`: `populationSize` fresh random chromosomes;
`rnd k` is the random stream consumed by the `k`-th call. -/
def initializePopulation (d : Nat → Nat → ℚ) (cityCount populationSize : Nat)
    (rnd : Nat → Nat → Nat) : List Chromosome :=
  (List.range populationSize).map
    (fun k => createChromosome d (generateRandomChromosome cityCount (rnd k)))

lemma initializePopulation_length (d : Nat → Nat → ℚ) (cityCount populationSize : Nat)
    (rnd : Nat → Nat → Nat) :
    (initializePopulation d cityCount populationSize rnd).length = populationSize := by
  unfold initializePopulation
  rw [List.length_map, List.length_range]

/-! ## Population snapshots and the four algorithm state machines -/

/-- `Population` from src/types/algorithm.ts. -/
structure Population where
  chromosomes : List Chromosome
  generation : Nat
  best : Chromosome
  worst : Chromosome
  average : ℚ
  diversity : ℚ

/-- `GenerationStats` from src/types/algorithm.ts (`elapsedTime`, a wall
clock reading, has no shallow embedding and is omitted). -/
structure GenerationStats where
  generation : Nat
  bestDistance : ℚ
  averageDistance : ℚ
  worstDistance : ℚ
  diversity : ℚ

/-- `calculateDiversity` from src/algorithms/unique.ts: distinct gene
sequences (the `join(',')` keys correspond injectively to the gene lists)
divided by population size. -/
def calculateDiversity (population : List Chromosome) : ℚ :=
  (((population.map Chromosome.genes).dedup.length : ℚ)) / (population.length : ℚ)

/-- The mutable state of a `GAJGHO` instance (src/algorithms/GAJGHO.ts):
its current population and generation counter.  The city list, params and
distance matrix are construction-time constants and are passed explicitly;
`startTime` is wall clock and omitted. -/
structure GAJGHOState where
  currentPopulation : List Chromosome
  generation : Nat
  deriving Repr

/-- `GAJGHO.initialize()`: build a fresh random population, reset the
generation counter to 0. -/
def gajghoInitialize (d : Nat → Nat → ℚ) (cities : List City) (populationSize : Nat)
    (rnd : Nat → Nat → Nat) (_s : GAJGHOState) : GAJGHOState :=
  { currentPopulation := initializePopulation d cities.length populationSize rnd
    generation := 0 }

/-- `GAJGHO.reset()`: discard the population, reset the counter. -/
def gajghoReset (_s : GAJGHOState) : GAJGHOState :=
  { currentPopulation := [], generation := 0 }

/-- `GAJGHO.getPopulation()`: sorts a copy of the population and reads
`sorted[0]` (best), `sorted[len-1]` (worst), the mean and the diversity.
On an empty population the JS reads `undefined` from `sorted[0]` (no valid
snapshot), modelled as `none`. -/
def gajghoGetPopulation (s : GAJGHOState) : Option Population :=
  match sortByDistance s.currentPopulation with
  | [] => none
  | best :: rest =>
    some { chromosomes := s.currentPopulation
           generation := s.generation
           best := best
           worst := (best :: rest).getLastD dfltC
           average := (s.currentPopulation.map Chromosome.distance).sum
              / (s.currentPopulation.length : ℚ)
           diversity := calculateDiversity s.currentPopulation }

/-- `GAJGHO.getStats()`: derived from `getPopulation()`; undefined (none)
in the same states. -/
def gajghoGetStats (s : GAJGHOState) : Option GenerationStats :=
  (gajghoGetPopulation s).map (fun p =>
    { generation := s.generation
      bestDistance := p.best.distance
      averageDistance := p.average
      worstDistance := p.worst.distance
      diversity := p.diversity })

/-- `AlgorithmParams` from src/types/algorithm.ts. -/
structure AlgorithmParams where
  populationSize : Nat
  maxGenerations : Nat
  eliteCount : Nat
  PfitMax : ℚ
  PfitMin : ℚ
  PsMax : ℚ
  PsMin : ℚ
  beta : ℚ
  PJG : ℚ
  q : Nat

/-- `initializeAlgorithm` from src/store/algorithmStore.ts: refuses (a
`console.warn` plus early return — no error value reaches the caller, no
algorithm/population is created) when fewer than 3 cities are configured;
otherwise constructs a GAJGHO instance and initializes it.  `none` models
the early return.  Note: `params.populationSize` is never validated. -/
def initializeAlgorithm (cities : List City) (params : AlgorithmParams)
    (d : Nat → Nat → ℚ) (rnd : Nat → Nat → Nat) : Option GAJGHOState :=
  if cities.length < 3 then none
  else some (gajghoInitialize d cities params.populationSize rnd ⟨[], 0⟩)

/-- The mutable state of a `StandardGA` instance
(src/algorithms/StandardGA.ts). -/
structure StandardGAState where
  population : List Chromosome
  currentGeneration : Nat
  stats : List GenerationStats

/-- `StandardGA.updateStats()`: sorts the population in place and appends a
stats record for the *current* generation counter. -/
def standardGAUpdateStats (s : StandardGAState) : StandardGAState :=
  let sorted := sortByDistance s.population
  { s with
    population := sorted
    stats := s.stats ++ [{ generation := s.currentGeneration
                           bestDistance := (sorted.headD dfltC).distance
                           averageDistance := (s.population.map Chromosome.distance).sum
                              / (s.population.length : ℚ)
                           worstDistance := (sorted.getLastD dfltC).distance
                           diversity := calculateDiversity s.population }] }

/-- `StandardGA.initialize()`: rebuild the population randomly and update
stats.  The generation counter is NOT touched by the source. -/
def standardGAInitialize (d : Nat → Nat → ℚ) (cityCount populationSize : Nat)
    (rnd : Nat → Nat → Nat) (s : StandardGAState) : StandardGAState :=
  let newPop := (List.range populationSize).map
    (fun k => createChromosome d (generateRandomChromosome cityCount (rnd k)))
  standardGAUpdateStats { s with population := newPop }

/-- `StandardGA.runGeneration()`: sort, keep the best `eliteCount`, fill the
rest with (randomized) crossover + mutation — `rest` stands for those
offspring — increment the counter, update stats. -/
def standardGARunGeneration (eliteCount : Nat)
    (rest : List Chromosome) (s : StandardGAState) : StandardGAState :=
  let sorted := sortByDistance s.population
  standardGAUpdateStats
    { population := sorted.take eliteCount ++ rest
      currentGeneration := s.currentGeneration + 1
      stats := s.stats }

/-- The mutable state of an `ABCTSP` instance (src/algorithms/jumpingGene.ts
file section `ABCTSP`). -/
structure ABCState where
  foodSources : List Chromosome
  trials : List Nat
  currentGeneration : Nat
  limit : Nat
  stats : List GenerationStats

/-- `ABCTSP.updateStats()`: sorts the food sources in place and appends a
stats record. -/
def abcUpdateStats (s : ABCState) : ABCState :=
  let sorted := sortByDistance s.foodSources
  { s with
    foodSources := sorted
    stats := s.stats ++ [{ generation := s.currentGeneration
                           bestDistance := (sorted.headD dfltC).distance
                           averageDistance := (s.foodSources.map Chromosome.distance).sum
                              / (s.foodSources.length : ℚ)
                           worstDistance := (sorted.getLastD dfltC).distance
                           diversity := calculateDiversity s.foodSources }] }

/-- `ABCTSP.initialize()`: `floor(populationSize / 2)` random food sources
with zeroed trial counters, then `updateStats()`.  The generation counter is
NOT touched by the source. -/
def abcInitialize (d : Nat → Nat → ℚ) (cityCount populationSize : Nat)
    (rnd : Nat → Nat → Nat) (s : ABCState) : ABCState :=
  let colonySize := populationSize / 2
  let newSources := (List.range colonySize).map
    (fun k => createChromosome d (generateRandomChromosome cityCount (rnd k)))
  abcUpdateStats { s with foodSources := newSources, trials := List.replicate colonySize 0 }

/-- `ABCTSP.generateNeighborSolution`: random swap or random segment
reversal; `useSwap` and the two index draws (reduced mod `n`) are explicit. -/
def generateNeighborSolution (d : Nat → Nat → ℚ) (source : Chromosome)
    (useSwap : Bool) (i j : Nat) : Chromosome :=
  let n := source.genes.length
  let genes :=
    if useSwap then listSwap source.genes (i % n) (j % n)
    else
      let st := min (i % n) (j % n)
      let en := max (i % n) (j % n)
      source.genes.take st ++ ((source.genes.drop st).take (en - st + 1)).reverse
        ++ source.genes.drop (en + 1)
  createChromosome d genes

/-- The greedy replace step shared by the employed and onlooker phases:
replace source `i` when the neighbor is strictly shorter (resetting its
trial counter), else increment the counter. -/
def greedyReplaceAt (d : Nat → Nat → ℚ) (s : ABCState) (i : Nat)
    (r : Bool × Nat × Nat) : ABCState :=
  let src := s.foodSources.getD i dfltC
  let newSolution := generateNeighborSolution d src r.1 r.2.1 r.2.2
  if newSolution.distance < src.distance then
    { s with foodSources := s.foodSources.set i newSolution
             trials := s.trials.set i 0 }
  else
    { s with trials := s.trials.set i (s.trials.getD i 0 + 1) }

/-- `ABCTSP.employedBeePhase()`: one greedy replace attempt per source. -/
def employedBeePhase (d : Nat → Nat → ℚ) (rnd : Nat → Bool × Nat × Nat)
    (s : ABCState) : ABCState :=
  (List.range s.foodSources.length).foldl (fun st i => greedyReplaceAt d st i (rnd i)) s

/-- `ABCTSP.calculateFitnessProbabilities()`. -/
def calculateFitnessProbabilities (s : ABCState) : List ℚ :=
  let maxDistance := (s.foodSources.map Chromosome.distance).max?.getD 0
  let fitnesses := s.foodSources.map (fun src => maxDistance - src.distance + 1)
  let totalFitness := fitnesses.sum
  fitnesses.map (fun f => f / totalFitness)

/-- The `while (t < len)` loop of `ABCTSP.onlookerBeePhase()`: each
iteration consumes one tuple of random draws; the loop is modelled on a
finite draw stream (the stochastic loop has no deterministic bound). -/
def onlookerGo (d : Nat → Nat → ℚ) (probs : List ℚ) :
    List (ℚ × Bool × Nat × Nat) → Nat → Nat → ABCState → ABCState
  | [], _, _, s => s
  | step :: stream, t, i, s =>
    if t < s.foodSources.length then
      if step.1 < probs.getD i 0 then
        onlookerGo d probs stream (t + 1) ((i + 1) % s.foodSources.length)
          (greedyReplaceAt d s i step.2)
      else
        onlookerGo d probs stream t ((i + 1) % s.foodSources.length) s
    else s

/-- `ABCTSP.onlookerBeePhase()`. -/
def onlookerBeePhase (d : Nat → Nat → ℚ) (stream : List (ℚ × Bool × Nat × Nat))
    (s : ABCState) : ABCState :=
  onlookerGo d (calculateFitnessProbabilities s) stream 0 0 s

/-- `ABCTSP.scoutBeePhase()`: sources whose trial counter reached the limit
are replaced in place by fresh random solutions. -/
def scoutBeePhase (d : Nat → Nat → ℚ) (cityCount : Nat) (rnd : Nat → Nat → Nat)
    (s : ABCState) : ABCState :=
  (List.range s.foodSources.length).foldl
    (fun st i =>
      if st.limit ≤ st.trials.getD i 0 then
        let fresh := createChromosome d (generateRandomChromosome cityCount (rnd i))
        { st with foodSources := st.foodSources.set i fresh, trials := st.trials.set i 0 }
      else st) s

/-- `ABCTSP.runGeneration()`: the three phases, then counter increment and
stats update. -/
def abcRunGeneration (d : Nat → Nat → ℚ) (cityCount : Nat)
    (rndE : Nat → Bool × Nat × Nat) (streamO : List (ℚ × Bool × Nat × Nat))
    (rndS : Nat → Nat → Nat) (s : ABCState) : ABCState :=
  let s1 := employedBeePhase d rndE s
  let s2 := onlookerBeePhase d streamO s1
  let s3 := scoutBeePhase d cityCount rndS s2
  abcUpdateStats { s3 with currentGeneration := s3.currentGeneration + 1 }

/-- `ABCTSP.getPopulation()`: sorts the food sources and snapshots them. -/
def abcGetPopulation (s : ABCState) : Population :=
  let sorted := sortByDistance s.foodSources
  { chromosomes := sorted
    generation := s.currentGeneration
    best := sorted.headD dfltC
    worst := sorted.getLastD dfltC
    average := (s.foodSources.map Chromosome.distance).sum / (s.foodSources.length : ℚ)
    diversity := calculateDiversity s.foodSources }

/-- The state of a `PACO3Opt` instance (src unnamed part: class PACO3Opt)
restricted to the fields the claims below concern; the pheromone matrix and
the (randomized) ACO construction and 3-opt improvement do not affect the
generation counter and are abstracted as the `construct`/`improve`
parameters of `pacoInitialize`. -/
structure PACOState where
  solutions : List Chromosome
  currentGeneration : Nat
  stats : List GenerationStats

/-- `PACO3Opt.updateStats()`. -/
def pacoUpdateStats (s : PACOState) : PACOState :=
  let sorted := sortByDistance s.solutions
  { s with
    solutions := sorted
    stats := s.stats ++ [{ generation := s.currentGeneration
                           bestDistance := (sorted.headD dfltC).distance
                           averageDistance := (s.solutions.map Chromosome.distance).sum
                              / (s.solutions.length : ℚ)
                           worstDistance := (sorted.getLastD dfltC).distance
                           diversity := calculateDiversity s.solutions }] }

/-- `PACO3Opt.initialize()`: build `populationSize` solutions by ACO
construction (`construct`), 3-opt improve each (`improve`), update
pheromones (not part of this state) and stats.  The generation counter is
NOT touched by the source. -/
def pacoInitialize (construct : Nat → Chromosome) (improve : Chromosome → Chromosome)
    (populationSize : Nat) (s : PACOState) : PACOState :=
  pacoUpdateStats
    { s with solutions := ((List.range populationSize).map construct).map improve }

lemma sortByDistance_nil : sortByDistance [] = [] :=
  (sortByDistance_perm []).eq_nil

lemma sortByDistance_length (l : List Chromosome) :
    (sortByDistance l).length = l.length :=
  (sortByDistance_perm l).length_eq

lemma sortByDistance_ne_nil {l : List Chromosome} (h : l ≠ []) :
    sortByDistance l ≠ [] := by
  intro hc
  have := sortByDistance_length l
  rw [hc] at this
  exact h (List.eq_nil_of_length_eq_zero this.symm)

/-- **C10.** `GAJGHO.getPopulation()`/`getStats()` require a non-empty
population: before `initialize()` or after `reset()` they read `sorted[0]`
of an empty array and divide by a zero population length, so no valid
snapshot exists (modelled `none`); after `initialize()` with
`populationSize ≥ 1` the population is non-empty, all accesses are in
bounds and the averaging divides by a positive count. -/
theorem gajgho_snapshot_safety (d : Nat → Nat → ℚ) (rnd : Nat → Nat → Nat)
    (cities : List City) (populationSize : Nat) (s : GAJGHOState) :
    (s.currentPopulation = [] → gajghoGetPopulation s = none ∧ gajghoGetStats s = none)
    ∧ gajghoGetPopulation (gajghoReset s) = none
    ∧ (1 ≤ populationSize →
        (gajghoInitialize d cities populationSize rnd s).currentPopulation.length
            = populationSize
        ∧ ∃ p, gajghoGetPopulation (gajghoInitialize d cities populationSize rnd s)
            = some p) := by
  have hempty : ∀ s' : GAJGHOState, s'.currentPopulation = [] →
      gajghoGetPopulation s' = none := by
    intro s' h
    unfold gajghoGetPopulation
    rw [h, sortByDistance_nil]
  refine ⟨?_, ?_, ?_⟩
  · intro h
    refine ⟨hempty s h, ?_⟩
    unfold gajghoGetStats
    rw [hempty s h]
    rfl
  · exact hempty _ rfl
  · intro hpos
    have hlen : (gajghoInitialize d cities populationSize rnd s).currentPopulation.length
        = populationSize := initializePopulation_length d cities.length populationSize rnd
    refine ⟨hlen, ?_⟩
    have hne : (gajghoInitialize d cities populationSize rnd s).currentPopulation ≠ [] := by
      intro hc
      rw [hc] at hlen
      simp at hlen
      omega
    have hsne := sortByDistance_ne_nil hne
    obtain ⟨a, t, hat⟩ := List.exists_cons_of_ne_nil hsne
    have hx : (gajghoGetPopulation (gajghoInitialize d cities populationSize rnd s)).isSome
        = true := by
      unfold gajghoGetPopulation
      rw [hat]
      rfl
    exact Option.isSome_iff_exists.1 hx

/-- Witness for C10 at concrete states. -/
theorem gajgho_snapshot_safety_witness :
    gajghoGetPopulation ⟨[], 7⟩ = none
    ∧ (gajghoInitialize (fun _ _ => (0 : ℚ)) [⟨0, 0, 0⟩, ⟨1, 1, 0⟩, ⟨2, 0, 1⟩] 1
        (fun _ _ => 0) ⟨[], 0⟩).currentPopulation.length = 1 :=
  ⟨((gajgho_snapshot_safety (fun _ _ => (0 : ℚ)) (fun _ _ => 0) [] 1 ⟨[], 7⟩).1 rfl).1,
    ((gajgho_snapshot_safety (fun _ _ => (0 : ℚ)) (fun _ _ => 0)
      [⟨0, 0, 0⟩, ⟨1, 1, 0⟩, ⟨2, 0, 1⟩] 1 ⟨[], 0⟩).2.2 (le_refl 1)).1⟩

/-- **C4 counterexample.** The claim says initialization refuses and surfaces
an InvalidInput error for fewer than 3 points *and likewise for a zero
population size*, creating no degenerate population.  In the code: (a) with
3 cities and `populationSize = 0` the store does not refuse — it creates the
algorithm with an empty, degenerate population; (b) `GAJGHO.initialize`
itself validates nothing: with only 2 cities it builds a non-empty
population of 2-city tours. -/
theorem initialize_validation_counterexample :
    initializeAlgorithm [⟨0, 0, 0⟩, ⟨1, 1, 0⟩, ⟨2, 0, 1⟩]
        ⟨0, 10, 1, 0, 0, 0, 0, 0, 0, 1⟩ (fun _ _ => 0) (fun _ _ => 0)
      = some ⟨[], 0⟩
    ∧ (gajghoInitialize (fun _ _ => (0 : ℚ)) [⟨0, 0, 0⟩, ⟨1, 1, 0⟩] 2
        (fun _ _ => 0) ⟨[], 0⟩).currentPopulation.length = 2 :=
  ⟨rfl, rfl⟩

/-- **C4 amended.** The store's `initializeAlgorithm` returns early (warning
only, no error value) and builds nothing when fewer than 3 cities are
configured; with at least 3 cities it always proceeds — the population size
is not validated — producing a population of exactly
`params.populationSize` tours (empty when that is 0) and generation 0. -/
theorem initializeAlgorithm_validation (cities : List City) (params : AlgorithmParams)
    (d : Nat → Nat → ℚ) (rnd : Nat → Nat → Nat) :
    (cities.length < 3 → initializeAlgorithm cities params d rnd = none)
    ∧ (3 ≤ cities.length →
        ∃ s, initializeAlgorithm cities params d rnd = some s
          ∧ s.currentPopulation.length = params.populationSize
          ∧ s.generation = 0) := by
  constructor
  · intro h
    unfold initializeAlgorithm
    rw [if_pos h]
  · intro h
    unfold initializeAlgorithm
    rw [if_neg (by omega)]
    exact ⟨_, rfl, initializePopulation_length _ _ _ _, rfl⟩

/-- Witness for the amended C4. -/
theorem initializeAlgorithm_validation_witness :
    initializeAlgorithm [] ⟨5, 10, 1, 0, 0, 0, 0, 0, 0, 1⟩ (fun _ _ => 0) (fun _ _ => 0)
      = none
    ∧ ∃ s, initializeAlgorithm [⟨0, 0, 0⟩, ⟨1, 1, 0⟩, ⟨2, 0, 1⟩]
        ⟨5, 10, 1, 0, 0, 0, 0, 0, 0, 1⟩ (fun _ _ => 0) (fun _ _ => 0) = some s
        ∧ s.currentPopulation.length = 5 ∧ s.generation = 0 :=
  ⟨(initializeAlgorithm_validation [] ⟨5, 10, 1, 0, 0, 0, 0, 0, 0, 1⟩
      (fun _ _ => 0) (fun _ _ => 0)).1 (by decide),
    (initializeAlgorithm_validation [⟨0, 0, 0⟩, ⟨1, 1, 0⟩, ⟨2, 0, 1⟩]
      ⟨5, 10, 1, 0, 0, 0, 0, 0, 0, 1⟩ (fun _ _ => 0) (fun _ _ => 0)).2 (by decide)⟩

/-- **C5 counterexample.** `StandardGA.initialize()` does not reset the
generation counter: initialize, run one generation (counter = 1), then
initialize again — the counter stays 1, not 0 as the claim requires. -/
theorem standardGAInitialize_no_reset :
    (standardGAInitialize (fun _ _ => (0 : ℚ)) 3 1 (fun _ _ => 0)
      (standardGARunGeneration 1 []
        (standardGAInitialize (fun _ _ => (0 : ℚ)) 3 1 (fun _ _ => 0)
          ⟨[], 0, []⟩))).currentGeneration = 1
    ∧ (1 : Nat) ≠ 0 :=
  ⟨rfl, by decide⟩

/-- **C5 amended.** Of the four stepping classes, only `GAJGHO.initialize()`
resets the generation counter to 0; `StandardGA.initialize()`,
`ABCTSP.initialize()` and `PACO3Opt.initialize()` rebuild/seed their
populations but leave the generation counter unchanged (it is 0 on a fresh
instance only because the constructor sets it). -/
theorem initialize_generation_counters (d : Nat → Nat → ℚ) (cities : List City)
    (cityCount ps : Nat) (rnd : Nat → Nat → Nat)
    (construct : Nat → Chromosome) (improve : Chromosome → Chromosome)
    (sg : GAJGHOState) (ss : StandardGAState) (sa : ABCState) (sp : PACOState) :
    (gajghoInitialize d cities ps rnd sg).generation = 0
    ∧ (standardGAInitialize d cityCount ps rnd ss).currentGeneration
        = ss.currentGeneration
    ∧ (abcInitialize d cityCount ps rnd sa).currentGeneration = sa.currentGeneration
    ∧ (pacoInitialize construct improve ps sp).currentGeneration
        = sp.currentGeneration :=
  ⟨rfl, rfl, rfl, rfl⟩

/-! ## C9: ABCTSP colony size -/

lemma greedyReplaceAt_length (d : Nat → Nat → ℚ) (s : ABCState) (i : Nat)
    (r : Bool × Nat × Nat) :
    (greedyReplaceAt d s i r).foodSources.length = s.foodSources.length := by
  unfold greedyReplaceAt
  dsimp only
  split
  · simp [List.length_set]
  · rfl

lemma employed_foldl_length (d : Nat → Nat → ℚ) (rnd : Nat → Bool × Nat × Nat) :
    ∀ (idxs : List Nat) (s : ABCState),
      ((idxs.foldl (fun st i => greedyReplaceAt d st i (rnd i)) s).foodSources.length)
        = s.foodSources.length := by
  intro idxs
  induction idxs with
  | nil => intro s; rfl
  | cons i idxs ih =>
    intro s
    rw [List.foldl_cons, ih, greedyReplaceAt_length]

lemma employedBeePhase_length (d : Nat → Nat → ℚ) (rnd : Nat → Bool × Nat × Nat)
    (s : ABCState) :
    (employedBeePhase d rnd s).foodSources.length = s.foodSources.length :=
  employed_foldl_length d rnd _ s

lemma onlookerGo_length (d : Nat → Nat → ℚ) (probs : List ℚ) :
    ∀ (stream : List (ℚ × Bool × Nat × Nat)) (t i : Nat) (s : ABCState),
      (onlookerGo d probs stream t i s).foodSources.length = s.foodSources.length := by
  intro stream
  induction stream with
  | nil => intro t i s; rfl
  | cons step stream ih =>
    intro t i s
    rw [onlookerGo]
    split
    · split
      · rw [ih, greedyReplaceAt_length]
      · rw [ih]
    · rfl

lemma onlookerBeePhase_length (d : Nat → Nat → ℚ) (stream : List (ℚ × Bool × Nat × Nat))
    (s : ABCState) :
    (onlookerBeePhase d stream s).foodSources.length = s.foodSources.length :=
  onlookerGo_length d _ stream 0 0 s

lemma scout_foldl_length (d : Nat → Nat → ℚ) (cityCount : Nat) (rnd : Nat → Nat → Nat) :
    ∀ (idxs : List Nat) (s : ABCState),
      ((idxs.foldl
        (fun st i =>
          if st.limit ≤ st.trials.getD i 0 then
            let fresh := createChromosome d (generateRandomChromosome cityCount (rnd i))
            { st with foodSources := st.foodSources.set i fresh,
                      trials := st.trials.set i 0 }
          else st) s).foodSources.length)
        = s.foodSources.length := by
  intro idxs
  induction idxs with
  | nil => intro s; rfl
  | cons i idxs ih =>
    intro s
    rw [List.foldl_cons, ih]
    split
    · simp [List.length_set]
    · rfl

lemma scoutBeePhase_length (d : Nat → Nat → ℚ) (cityCount : Nat)
    (rnd : Nat → Nat → Nat) (s : ABCState) :
    (scoutBeePhase d cityCount rnd s).foodSources.length = s.foodSources.length :=
  scout_foldl_length d cityCount rnd _ s

lemma abcUpdateStats_length (s : ABCState) :
    (abcUpdateStats s).foodSources.length = s.foodSources.length :=
  sortByDistance_length _

/-- **C9.** ABCTSP maintains exactly `floor(populationSize / 2)` food
sources: `initialize()` creates that many, every `runGeneration()` (employed,
onlooker, scout phases) replaces sources in place without changing the
count, and population snapshots expose exactly the food sources. -/
theorem abc_colony_size (d : Nat → Nat → ℚ) (cityCount populationSize : Nat)
    (rnd rndS : Nat → Nat → Nat) (rndE : Nat → Bool × Nat × Nat)
    (streamO : List (ℚ × Bool × Nat × Nat)) (s s' : ABCState) :
    (abcInitialize d cityCount populationSize rnd s).foodSources.length
        = populationSize / 2
    ∧ (abcRunGeneration d cityCount rndE streamO rndS s').foodSources.length
        = s'.foodSources.length
    ∧ (abcGetPopulation s').chromosomes.length = s'.foodSources.length := by
  refine ⟨?_, ?_, ?_⟩
  · unfold abcInitialize
    rw [abcUpdateStats_length]
    simp
  · unfold abcRunGeneration
    rw [abcUpdateStats_length]
    show (scoutBeePhase d cityCount rndS _).foodSources.length = _
    rw [scoutBeePhase_length, onlookerBeePhase_length, employedBeePhase_length]
  · unfold abcGetPopulation
    exact sortByDistance_length _

/-! ## Unique operator (src/algorithms/unique.ts) -/

/-- The scan of `uniqueOperator`: `seen` holds the keys (gene lists — the
`join(',')` keys correspond to them injectively) of chromosomes kept so
far, `k` counts the `generateRandomChromosome` calls made so far (each call
consumes its own random stream `rnd k`). -/
def uniqueGo (rnd : Nat → Nat → Nat) (cityCount : Nat) :
    List Chromosome → List (List Nat) → Nat → List Chromosome
  | [], _, _ => []
  | c :: t, seen, k =>
    if c.genes ∈ seen then
      ⟨generateRandomChromosome cityCount (rnd k), 0, 0⟩
        :: uniqueGo rnd cityCount t seen (k + 1)
    else
      c :: uniqueGo rnd cityCount t (c.genes :: seen) k

/-- `uniqueOperator` from src/algorithms/unique.ts: keep the first
occurrence of each gene sequence, replace every later duplicate by a fresh
random chromosome with fitness and distance 0. -/
def uniqueOperator (rnd : Nat → Nat → Nat) (population : List Chromosome)
    (cityCount : Nat) : List Chromosome :=
  uniqueGo rnd cityCount population [] 0

/-- `calculateFitnessAfterUnique` from src/algorithms/unique.ts: recompute
the tour length for exactly the zero-fitness chromosomes. -/
def calculateFitnessAfterUnique (chromosomes : List Chromosome)
    (d : Nat → Nat → ℚ) : List Chromosome :=
  chromosomes.map (fun chr =>
    if chr.fitness = 0 then
      { chr with fitness := calculateTotalDistanceWithMatrix d chr.genes
                 distance := calculateTotalDistanceWithMatrix d chr.genes }
    else chr)

lemma uniqueGo_length (rnd : Nat → Nat → Nat) (cityCount : Nat) :
    ∀ (t : List Chromosome) (seen : List (List Nat)) (k : Nat),
      (uniqueGo rnd cityCount t seen k).length = t.length := by
  intro t
  induction t with
  | nil => intro seen k; rfl
  | cons c t ih =>
    intro seen k
    rw [uniqueGo]
    split <;> simp [ih]

lemma uniqueGo_spec (rnd : Nat → Nat → Nat) (cityCount : Nat) :
    ∀ (t : List Chromosome) (seen : List (List Nat)) (k i : Nat), i < t.length →
      (((t.getD i dfltC).genes ∈ seen
          ∨ (t.getD i dfltC).genes ∈ (t.take i).map Chromosome.genes) →
        ∃ m, (uniqueGo rnd cityCount t seen k).getD i dfltC
          = ⟨generateRandomChromosome cityCount (rnd m), 0, 0⟩)
      ∧ (¬ ((t.getD i dfltC).genes ∈ seen
          ∨ (t.getD i dfltC).genes ∈ (t.take i).map Chromosome.genes) →
        (uniqueGo rnd cityCount t seen k).getD i dfltC = t.getD i dfltC) := by
  intro t
  induction t with
  | nil => intro seen k i hi; simp at hi
  | cons c t ih =>
    intro seen k i hi
    rw [uniqueGo]
    by_cases hseen : c.genes ∈ seen
    · rw [if_pos hseen]
      cases i with
      | zero =>
        refine ⟨fun _ => ⟨k, ?_⟩, fun hcond => absurd (Or.inl hseen) hcond⟩
        rw [List.getD_cons_zero]
      | succ i =>
        have hi' : i < t.length := by simpa using hi
        have hcond : ((c :: t).getD (i + 1) dfltC).genes ∈ seen
            ∨ ((c :: t).getD (i + 1) dfltC).genes ∈ ((c :: t).take (i + 1)).map Chromosome.genes
          ↔ (t.getD i dfltC).genes ∈ seen
            ∨ (t.getD i dfltC).genes ∈ (t.take i).map Chromosome.genes := by
          rw [List.getD_cons_succ, List.take_succ_cons, List.map_cons, List.mem_cons]
          constructor
          · rintro (h | h | h)
            · exact Or.inl h
            · exact Or.inl (h ▸ hseen)
            · exact Or.inr h
          · rintro (h | h)
            · exact Or.inl h
            · exact Or.inr (Or.inr h)
        obtain ⟨hpos, hneg⟩ := ih seen (k + 1) i hi'
        constructor
        · intro h
          obtain ⟨m, hm⟩ := hpos (hcond.1 h)
          exact ⟨m, by simpa using hm⟩
        · intro h
          have hkeep := hneg (fun hc => h (hcond.2 hc))
          simpa using hkeep
    · rw [if_neg hseen]
      cases i with
      | zero =>
        refine ⟨fun hcond => ?_, fun _ => List.getD_cons_zero ..⟩
        exfalso
        rcases hcond with h | h
        · rw [List.getD_cons_zero] at h
          exact hseen h
        · simp at h
      | succ i =>
        have hi' : i < t.length := by simpa using hi
        have hcond : ((c :: t).getD (i + 1) dfltC).genes ∈ seen
            ∨ ((c :: t).getD (i + 1) dfltC).genes ∈ ((c :: t).take (i + 1)).map Chromosome.genes
          ↔ (t.getD i dfltC).genes ∈ (c.genes :: seen)
            ∨ (t.getD i dfltC).genes ∈ (t.take i).map Chromosome.genes := by
          rw [List.getD_cons_succ, List.take_succ_cons, List.map_cons, List.mem_cons,
            List.mem_cons]
          constructor
          · rintro (h | h | h)
            · exact Or.inl (Or.inr h)
            · exact Or.inl (Or.inl h)
            · exact Or.inr h
          · rintro ((h | h) | h)
            · exact Or.inr (Or.inl h)
            · exact Or.inl h
            · exact Or.inr (Or.inr h)
        rw [List.getD_cons_succ, List.getD_cons_succ]
        obtain ⟨hpos, hneg⟩ := ih (c.genes :: seen) k i hi'
        constructor
        · intro h
          obtain ⟨m, hm⟩ := hpos (hcond.1 h)
          exact ⟨m, by simpa using hm⟩
        · intro h
          have hkeep := hneg (fun hc => h (hcond.2 hc))
          simpa using hkeep

/-- **C6.** `uniqueOperator` keeps the population size; the first occurrence
of each gene sequence is kept unchanged and every later duplicate is
replaced by a freshly generated random permutation with fitness and
distance reset to 0; `calculateFitnessAfterUnique` recomputes the tour
length for exactly the zero-fitness tours; and a population of 5 identical
tours yields exactly 1 retained original plus 4 fresh chromosomes. -/
theorem uniqueOperator_spec (rnd : Nat → Nat → Nat) (cityCount : Nat)
    (population : List Chromosome) (d : Nat → Nat → ℚ) (c : Chromosome) :
    (uniqueOperator rnd population cityCount).length = population.length
    ∧ (∀ i, i < population.length →
        (((population.getD i dfltC).genes ∈ (population.take i).map Chromosome.genes) →
          ∃ m, (uniqueOperator rnd population cityCount).getD i dfltC
              = ⟨generateRandomChromosome cityCount (rnd m), 0, 0⟩
            ∧ (generateRandomChromosome cityCount (rnd m)).Perm (List.range cityCount))
        ∧ (¬ ((population.getD i dfltC).genes ∈ (population.take i).map Chromosome.genes) →
          (uniqueOperator rnd population cityCount).getD i dfltC
            = population.getD i dfltC))
    ∧ uniqueOperator rnd [c, c, c, c, c] cityCount
        = [c, ⟨generateRandomChromosome cityCount (rnd 0), 0, 0⟩,
            ⟨generateRandomChromosome cityCount (rnd 1), 0, 0⟩,
            ⟨generateRandomChromosome cityCount (rnd 2), 0, 0⟩,
            ⟨generateRandomChromosome cityCount (rnd 3), 0, 0⟩]
    ∧ (∀ (chrs : List Chromosome) (i : Nat), i < chrs.length →
        ((chrs.getD i dfltC).fitness = 0 →
          (calculateFitnessAfterUnique chrs d).getD i dfltC
            = { chrs.getD i dfltC with
                fitness := calculateTotalDistanceWithMatrix d (chrs.getD i dfltC).genes
                distance := calculateTotalDistanceWithMatrix d (chrs.getD i dfltC).genes })
        ∧ ((chrs.getD i dfltC).fitness ≠ 0 →
          (calculateFitnessAfterUnique chrs d).getD i dfltC = chrs.getD i dfltC)) := by
  refine ⟨uniqueGo_length rnd cityCount population [] 0, ?_, ?_, ?_⟩
  · intro i hi
    obtain ⟨hpos, hneg⟩ := uniqueGo_spec rnd cityCount population [] 0 i hi
    constructor
    · intro h
      obtain ⟨m, hm⟩ := hpos (Or.inr h)
      exact ⟨m, hm, generateRandomChromosome_perm cityCount (rnd m)⟩
    · intro h
      apply hneg
      rintro (hc | hc)
      · simp at hc
      · exact h hc
  · show uniqueGo rnd cityCount [c, c, c, c, c] [] 0 = _
    rw [uniqueGo, if_neg (by simp),
      uniqueGo, if_pos (List.mem_cons_self _ _),
      uniqueGo, if_pos (List.mem_cons_self _ _),
      uniqueGo, if_pos (List.mem_cons_self _ _),
      uniqueGo, if_pos (List.mem_cons_self _ _),
      uniqueGo]
  · intro chrs i hi
    have hmap : (calculateFitnessAfterUnique chrs d).getD i dfltC
        = (fun chr => if chr.fitness = 0 then
            { chr with fitness := calculateTotalDistanceWithMatrix d chr.genes
                       distance := calculateTotalDistanceWithMatrix d chr.genes }
          else chr) (chrs.getD i dfltC) := by
      unfold calculateFitnessAfterUnique
      rw [List.getD_eq_getElem _ _ (by simpa using hi), List.getElem_map,
        List.getD_eq_getElem _ _ hi]
    constructor
    · intro h
      rw [hmap]
      simp only [h, if_pos]
    · intro h
      rw [hmap]
      exact if_neg h

/-- Witness for C6 at a concrete duplicate pair. -/
theorem uniqueOperator_spec_witness :
    (uniqueOperator (fun _ _ => 0) [⟨[0, 1], 1, 1⟩, ⟨[0, 1], 1, 1⟩] 2).length = 2
    ∧ (uniqueOperator (fun _ _ => 0) [⟨[0, 1], 1, 1⟩, ⟨[0, 1], 1, 1⟩] 2).getD 0 dfltC
        = ⟨[0, 1], 1, 1⟩ := by
  have h := uniqueOperator_spec (fun _ _ => 0) 2 [⟨[0, 1], 1, 1⟩, ⟨[0, 1], 1, 1⟩]
    (fun _ _ => 0) ⟨[0, 1], 1, 1⟩
  exact ⟨h.1, (h.2.1 0 (by decide)).2 (by decide)⟩

/-! ## Roulette wheel selection (src/algorithms/selection.ts) -/

/-- The scan loop of `rouletteWheelSelect`: accumulate fitness values and
return the first index whose cumulative sum reaches the spin
(`cumulative += f[i]; if (cumulative >= spin) return i`). -/
def wheelScanGo (spin : ℚ) : List ℚ → ℚ → Nat → Option Nat
  | [], _, _ => none
  | f :: fs, cumulative, i =>
    if spin ≤ cumulative + f then some i
    else wheelScanGo spin fs (cumulative + f) (i + 1)

/-- `rouletteWheelSelect` from src/algorithms/selection.ts, with the random
draw `r` explicit: zero total fitness falls back to a uniform random pick
`population[floor(r * N)]`; otherwise spin the wheel at `r * totalFitness`
(the scan runs over the fitness values — the source indexes
`fitnessValues[i]` for `i < population.length`, the same when the lengths
agree); the unreachable fallback returns the last element. -/
def rouletteWheelSelect (population : List Chromosome) (fitnessValues : List ℚ)
    (r : ℚ) : Chromosome :=
  if fitnessValues.sum = 0 then
    population.getD (⌊r * (population.length : ℚ)⌋).toNat dfltC
  else
    match wheelScanGo (r * fitnessValues.sum) fitnessValues 0 0 with
    | some i => population.getD i dfltC
    | none => population.getD (population.length - 1) dfltC

lemma wheelScanGo_ge (spin : ℚ) :
    ∀ (fs : List ℚ) (cum : ℚ) (i0 m : Nat),
      wheelScanGo spin fs cum i0 = some m → i0 ≤ m := by
  intro fs
  induction fs with
  | nil => intro cum i0 m h; simp [wheelScanGo] at h
  | cons f fs ih =>
    intro cum i0 m h
    rw [wheelScanGo] at h
    split at h
    · cases h
      exact le_refl _
    · exact le_trans (by omega) (ih (cum + f) (i0 + 1) m h)

lemma wheelScanGo_eq_some_iff (spin : ℚ) :
    ∀ (fs : List ℚ) (cum : ℚ) (i0 j : Nat),
      wheelScanGo spin fs cum i0 = some (i0 + j)
        ↔ (j < fs.length ∧ spin ≤ cum + (fs.take (j + 1)).sum
            ∧ ∀ k < j, cum + (fs.take (k + 1)).sum < spin) := by
  intro fs
  induction fs with
  | nil =>
    intro cum i0 j
    constructor
    · intro h; simp [wheelScanGo] at h
    · rintro ⟨hj, _⟩; simp at hj
  | cons f fs ih =>
    intro cum i0 j
    rw [wheelScanGo]
    by_cases hc : spin ≤ cum + f
    · rw [if_pos hc]
      constructor
      · intro h
        have hj : j = 0 := by
          have := Option.some.inj h
          omega
        subst hj
        exact ⟨by simp, by simpa using hc, by omega⟩
      · rintro ⟨hj, hle, hfirst⟩
        rcases Nat.eq_zero_or_pos j with rfl | hpos
        · rfl
        · exfalso
          have h0 := hfirst 0 hpos
          rw [List.take_succ_cons, List.take_zero] at h0
          simp at h0
          exact absurd hc (not_le.2 h0)
    · rw [if_neg hc]
      cases j with
      | zero =>
        constructor
        · intro h
          have hge := wheelScanGo_ge spin fs (cum + f) (i0 + 1) (i0 + 0) h
          exact absurd hge (by omega)
        · rintro ⟨_, hle, _⟩
          rw [List.take_succ_cons, List.take_zero] at hle
          simp at hle
          exact absurd hle hc
      | succ m =>
        have hj' : i0 + (m + 1) = (i0 + 1) + m := by omega
        rw [hj', ih (cum + f) (i0 + 1) m]
        constructor
        · rintro ⟨hm, hle, hfirst⟩
          refine ⟨by simpa using Nat.succ_lt_succ hm, ?_, ?_⟩
          · rw [List.take_succ_cons, List.sum_cons]
            linarith
          · intro k hk
            cases k with
            | zero =>
              rw [List.take_succ_cons, List.take_zero]
              simpa using not_le.1 hc
            | succ k' =>
              rw [List.take_succ_cons, List.sum_cons]
              have hx := hfirst k' (by omega)
              linarith
        · rintro ⟨hm, hle, hfirst⟩
          refine ⟨by simp at hm; omega, ?_, ?_⟩
          · rw [List.take_succ_cons, List.sum_cons] at hle
            linarith
          · intro k hk
            have hx := hfirst (k + 1) (by omega)
            rw [List.take_succ_cons, List.sum_cons] at hx
            linarith

lemma wheelScanGo_exists (spin : ℚ) :
    ∀ (fs : List ℚ) (cum : ℚ) (i0 : Nat), cum < spin → spin ≤ cum + fs.sum →
      ∃ m, wheelScanGo spin fs cum i0 = some m ∧ m < i0 + fs.length := by
  intro fs
  induction fs with
  | nil =>
    intro cum i0 hlt hle
    simp at hle
    exact absurd hle (not_le.2 hlt)
  | cons f fs ih =>
    intro cum i0 hlt hle
    rw [wheelScanGo]
    by_cases hc : spin ≤ cum + f
    · rw [if_pos hc]
      exact ⟨i0, rfl, by simp⟩
    · rw [if_neg hc]
      have hlt' : cum + f < spin := not_le.1 hc
      have hle' : spin ≤ (cum + f) + fs.sum := by
        rw [List.sum_cons] at hle
        linarith
      obtain ⟨m, hm, hmlt⟩ := ih (cum + f) (i0 + 1) hlt' hle'
      exact ⟨m, hm, by simp at hmlt ⊢; omega⟩

/-- **C7.** When the supplied fitness values sum to zero, roulette selection
recovers locally with a uniform random pick: it returns
`population[⌊r·N⌋]`, the index is always in bounds (never an error), and
index `i` is chosen exactly when `r` lies in `[i/N, (i+1)/N)` — an interval
of length `1/N` for each of the `N` tours.  When the sum is positive (and
fitness values are non-negative, as both fitness schemes produce), the scan
returns the (in-bounds) first index whose cumulative fitness reaches the
spin `r·total`: index `i` is chosen exactly when the spin falls in the
interval of width `fitnessValues[i]` between the prefix sums — selection
proportional to fitness. -/
theorem rouletteWheelSelect_spec (population : List Chromosome)
    (fitnessValues : List ℚ) (r : ℚ) (i : Nat)
    (hlen : fitnessValues.length = population.length) (hne : population ≠ []) :
    (fitnessValues.sum = 0 → 0 ≤ r → r < 1 →
      rouletteWheelSelect population fitnessValues r
          = population.getD (⌊r * (population.length : ℚ)⌋).toNat dfltC
        ∧ (⌊r * (population.length : ℚ)⌋).toNat < population.length
        ∧ (i < population.length →
            ((⌊r * (population.length : ℚ)⌋).toNat = i
              ↔ (i : ℚ) / (population.length : ℚ) ≤ r
                ∧ r < ((i : ℚ) + 1) / (population.length : ℚ))))
    ∧ (0 < fitnessValues.sum → (∀ f ∈ fitnessValues, 0 ≤ f) → 0 < r → r < 1 →
        (∃ m, wheelScanGo (r * fitnessValues.sum) fitnessValues 0 0 = some m
          ∧ m < population.length
          ∧ rouletteWheelSelect population fitnessValues r = population.getD m dfltC)
        ∧ (wheelScanGo (r * fitnessValues.sum) fitnessValues 0 0 = some i
            ↔ i < fitnessValues.length
              ∧ r * fitnessValues.sum ≤ (fitnessValues.take (i + 1)).sum
              ∧ ∀ k < i, (fitnessValues.take (k + 1)).sum < r * fitnessValues.sum)
        ∧ (i < fitnessValues.length →
            (fitnessValues.take (i + 1)).sum
              = (fitnessValues.take i).sum + fitnessValues.getD i 0)) := by
  have hNpos : 0 < population.length := List.length_pos.2 hne
  have hNQ : (0 : ℚ) < (population.length : ℚ) := by exact_mod_cast hNpos
  constructor
  · intro hzero hr0 hr1
    have hfloor0 : 0 ≤ ⌊r * (population.length : ℚ)⌋ :=
      Int.floor_nonneg.2 (mul_nonneg hr0 (le_of_lt hNQ))
    have hfloorlt : ⌊r * (population.length : ℚ)⌋ < population.length := by
      rw [Int.floor_lt]
      push_cast
      calc r * (population.length : ℚ) < 1 * (population.length : ℚ) := by
            exact mul_lt_mul_of_pos_right hr1 hNQ
        _ = (population.length : ℚ) := one_mul _
    refine ⟨?_, ?_, ?_⟩
    · unfold rouletteWheelSelect
      rw [if_pos hzero]
    · omega
    · intro hi
      have htn : ((⌊r * (population.length : ℚ)⌋).toNat : ℤ)
          = ⌊r * (population.length : ℚ)⌋ := Int.toNat_of_nonneg hfloor0
      constructor
      · intro heq
        have hfl : ⌊r * (population.length : ℚ)⌋ = (i : ℤ) := by omega
        rw [Int.floor_eq_iff] at hfl
        obtain ⟨h1, h2⟩ := hfl
        constructor
        · rw [div_le_iff₀ hNQ]
          exact_mod_cast h1
        · rw [lt_div_iff₀ hNQ]
          push_cast at h2 ⊢
          linarith
      · rintro ⟨h1, h2⟩
        have hfl : ⌊r * (population.length : ℚ)⌋ = (i : ℤ) := by
          rw [Int.floor_eq_iff]
          constructor
          · rw [div_le_iff₀ hNQ] at h1
            exact_mod_cast h1
          · rw [lt_div_iff₀ hNQ] at h2
            push_cast
            linarith
        omega
  · intro hpos hnn hr0 hr1
    have hspin0 : 0 < r * fitnessValues.sum := mul_pos hr0 hpos
    have hspinle : r * fitnessValues.sum ≤ 0 + fitnessValues.sum := by
      rw [zero_add]
      calc r * fitnessValues.sum ≤ 1 * fitnessValues.sum := by
            exact mul_le_mul_of_nonneg_right (le_of_lt hr1) (le_of_lt hpos)
        _ = fitnessValues.sum := one_mul _
    obtain ⟨m, hm, hmlt⟩ := wheelScanGo_exists (r * fitnessValues.sum) fitnessValues 0 0
      (by linarith) hspinle
    refine ⟨⟨m, hm, by omega, ?_⟩, ?_, ?_⟩
    · unfold rouletteWheelSelect
      rw [if_neg (ne_of_gt hpos), hm]
    · have hiff := wheelScanGo_eq_some_iff (r * fitnessValues.sum) fitnessValues 0 0 i
      constructor
      · intro h
        have h' : wheelScanGo (r * fitnessValues.sum) fitnessValues 0 0 = some (0 + i) := by
          rw [Nat.zero_add]
          exact h
        obtain ⟨h1, h2, h3⟩ := hiff.1 h'
        exact ⟨h1, by simpa using h2, fun k hk => by simpa using h3 k hk⟩
      · rintro ⟨h1, h2, h3⟩
        have h' := hiff.2 ⟨h1, by simpa using h2, fun k hk => by simpa using h3 k hk⟩
        rw [Nat.zero_add] at h'
        exact h'
    · intro hi
      rw [List.getD_eq_getElem _ _ hi]
      exact List.sum_take_succ fitnessValues i hi

/-- Witness for C7 at a concrete population and draws. -/
theorem rouletteWheelSelect_spec_witness :
    (([(0 : ℚ), 0].sum = 0 ∧ (0 : ℚ) ≤ 1 / 2 ∧ (1 / 2 : ℚ) < 1)
      ∧ (⌊(1 / 2 : ℚ) * (([⟨[0], 1, 1⟩, ⟨[1], 2, 2⟩] : List Chromosome).length : ℚ)⌋).toNat
          < ([⟨[0], 1, 1⟩, ⟨[1], 2, 2⟩] : List Chromosome).length)
    ∧ ∃ m, wheelScanGo ((1 / 2) * ([(1 : ℚ), 1].sum)) [(1 : ℚ), 1] 0 0 = some m
        ∧ m < ([⟨[0], 1, 1⟩, ⟨[1], 2, 2⟩] : List Chromosome).length
        ∧ rouletteWheelSelect [⟨[0], 1, 1⟩, ⟨[1], 2, 2⟩] [(1 : ℚ), 1] (1 / 2)
            = ([⟨[0], 1, 1⟩, ⟨[1], 2, 2⟩] : List Chromosome).getD m dfltC := by
  constructor
  · refine ⟨⟨by simp, by norm_num, by norm_num⟩, ?_⟩
    exact ((rouletteWheelSelect_spec [⟨[0], 1, 1⟩, ⟨[1], 2, 2⟩] [0, 0] (1 / 2) 0
      (by decide) (by simp)).1 (by simp) (by norm_num) (by norm_num)).2.1
  · exact ((rouletteWheelSelect_spec [⟨[0], 1, 1⟩, ⟨[1], 2, 2⟩] [1, 1] (1 / 2) 0
      (by decide) (by simp)).2 (by norm_num)
      (by intro f hf; fin_cases hf <;> norm_num) (by norm_num) (by norm_num)).1

end GAJHO
